import Mathlib

/-!
# estab: streaming search hits as delimited text

A shallow embedding of `cmd/estab/estab.go`.  The program is one function, `main`; the
embedding follows its blocks:

* lines 57-69   `buildQuery`
* lines 74-80   `checkFlags`
* lines 82-84   `withFields`
* lines 141-155 `renderElems`
* lines 126-159 `resolve`
* lines 125-167 `fieldsLoop`
* lines 115-170 `emitHit`
* lines 112-171 `processHit`
* lines 111-172 `hitsLoop`
* lines 100-173 `scrollLoop`
* lines 57-174  `main`

Effects are made explicit: every request to the backend, every `fmt.Fprintln(w, ...)` and
the deferred `w.Flush()` is an `Event` of the run's log, in program order.  What reaches
standard output is obtained by replaying the log on a model of `bufio.Writer`.

Go strings are modelled by `String` (valid UTF-8), `float64` by its bit pattern, and the
Go `int` counter `i` by an `Int` wrapped to 64 bits.  The functions of other packages that
`main` calls and whose result depends on more than the text shown here
(`strconv.FormatFloat`, `json.Marshal`, `json.Unmarshal`) are the fields of `Lib`.
A map variable can be nil (`Query`); the assignment of line 83 to an entry of a nil map is
a run-time panic, recorded as `Failure.nilMap`.

The embedding describes the run of `main` after `flag.Parse` for an invocation without
`-v` and `-cpuprofile` (lines 43-55 do nothing then).
-/

namespace Estab

/-! ## Data model -/

/-- An IEEE-754 double, identified by its 64 bit pattern. -/
structure Float64 where
  bits : Nat
  deriving DecidableEq

/-- What `encoding/json` stores in an `interface{}`: `nil`, `bool`, `float64`, `string`,
`[]interface{}` or `map[string]interface{}`. -/
inductive JSON where
  | null
  | bool (b : Bool)
  | num (x : Float64)
  | str (s : String)
  | arr (es : List JSON)
  | obj (kvs : List (String × JSON))

/-- A non-nil `map[string]interface{}`; the first binding of a key is the one that counts. -/
abbrev JMap := List (String × JSON)

/-- A variable of type `map[string]interface{}`: `none` is the nil map, which reads as an
empty map and cannot be assigned to. -/
abbrev Query := Option JMap

/-- A `goes.Hit`: the fields that `main` reads (`Typ` is the Go field `Type`), and in
`Other` whatever else the record carries (its source document, highlights), which `main`
only hands to `json.Marshal`. -/
structure Hit where
  Index : String
  Typ : String
  ID : String
  Score : Float64
  Fields : JMap
  Other : JMap

/-- The part of `goes.Response` that `main` reads: the cursor and `Hits.Hits`. -/
structure Response where
  ScrollID : String
  Hits : List Hit

/-- The outcome of one `conn.Scroll` call: a response, `io.EOF`, or another error. -/
inductive ScrollResult where
  | ok (r : Response)
  | eof
  | err (e : String)

/-- The backend as seen by one run: the outcome of `conn.Scan` (an error or a response)
and the outcomes of the successive `conn.Scroll` calls, in the order of the calls. -/
structure Backend where
  scan : Except String Response
  scrolls : List ScrollResult

/-- The flag values after `flag.Parse` (lines 22-39). -/
structure Config where
  host : String
  port : String
  indicesString : String
  fieldsString : String
  timeout : String
  size : Int
  nullValue : String
  separator : String
  delimiter : String
  limit : Int
  queryString : String
  raw : Bool
  header : Bool
  singleValue : Bool
  zeroAsNull : Bool
  precision : Int

/-- The default value of every flag (lines 22-39). -/
def defaults : Config where
  host := "localhost"
  port := "9200"
  indicesString := ""
  fieldsString := "_id _index"
  timeout := "10m"
  size := 10000
  nullValue := "NOT_AVAILABLE"
  separator := "|"
  delimiter := "\t"
  limit := -1
  queryString := ""
  raw := false
  header := false
  singleValue := false
  zeroAsNull := false
  precision := 0

/-- Library functions whose results are not determined by the text of `main`. -/
structure Lib where
  /-- Stands for `strconv.FormatFloat(x, 'f', prec, 64)`. -/
  FormatFloat : Float64 → Int → String
  /-- Stands for `json.Marshal(hit)`; `none` is a non-nil error. -/
  Marshal : Hit → Option String
  /-- Stands for `json.Unmarshal` into the nil variable `query`; `none` is a non-nil error,
  `some none` leaves the map nil without error (the document `null`). -/
  Unmarshal : String → Option Query

/-! ## Library functions with a fixed meaning -/

/-- Go `unicode.IsSpace`. -/
def isSpace (c : Char) : Bool :=
  let n := c.toNat
  n == 0x09 || n == 0x0A || n == 0x0B || n == 0x0C || n == 0x0D || n == 0x20 ||
  n == 0x85 || n == 0xA0 || n == 0x1680 || (0x2000 ≤ n && n ≤ 0x200A) ||
  n == 0x2028 || n == 0x2029 || n == 0x202F || n == 0x205F || n == 0x3000

/-- The scan of `strings.Fields`: `cur` holds the current field, reversed. -/
def fieldsAux : List Char → List Char → List String
  | [], cur => if cur.isEmpty then [] else [String.mk cur.reverse]
  | c :: cs, cur =>
    if isSpace c then
      (if cur.isEmpty then fieldsAux cs [] else String.mk cur.reverse :: fieldsAux cs [])
    else fieldsAux cs (c :: cur)

/-- Go `strings.Fields`: the maximal runs of non-space characters. -/
def Fields (s : String) : List String := fieldsAux s.data []

/-- Go `strings.Join`. -/
def Join : List String → String → String
  | [], _ => ""
  | [a], _ => a
  | a :: b :: rest, sep => a ++ sep ++ Join (b :: rest) sep

/-- Go `strconv.FormatBool`. -/
def FormatBool (b : Bool) : String := if b then "true" else "false"

/-- The scan of `strings.Split` for a non-empty separator: `skip` characters of a matched
separator are still to be passed over, `cur` holds the current piece, reversed. -/
def splitAux (sep : List Char) : Nat → List Char → List Char → List (List Char)
  | _, [], cur => [cur.reverse]
  | k + 1, _ :: cs, cur => splitAux sep k cs cur
  | 0, c :: cs, cur =>
    if sep.isPrefixOf (c :: cs) then cur.reverse :: splitAux sep (sep.length - 1) cs []
    else splitAux sep 0 cs (c :: cur)

/-- Go `strings.Split`: the pieces between the leftmost non-overlapping occurrences of
`sep`; with an empty `sep` the string is cut after each character. -/
def Split (s sep : String) : List String :=
  if sep.data.isEmpty then s.data.map (fun c => String.mk [c])
  else (splitAux sep.data 0 s.data []).map String.mk

/-- A 64-bit Go `int` after an arithmetic operation: two's complement wrap-around. -/
def wrapInt (x : Int) : Int := (x + 2 ^ 63) % 2 ^ 64 - 2 ^ 63

/-- Assignment `m[k] = v` on a map. -/
def mapSet (m : JMap) (k : String) (v : JSON) : JMap :=
  (k, v) :: m.filter (fun kv => kv.1 != k)

/-! ## Effects -/

/-- The four `fmt.Fprintln(w, ...)` calls of `main`: line 97 (header), line 120 (raw
record), line 162 (one value in single-value mode), line 169 (multi-column row). -/
inductive Site where
  | header
  | raw
  | value
  | row
  deriving DecidableEq

/-- An observable step of a run. -/
inductive Event where
  /-- A `conn.Scan(query, indices, []string{""}, timeout, size)` call (line 87). -/
  | scan (query : Query) (indices : List String) (timeout : String) (size : Int)
  /-- A `conn.Scroll(scrollID, timeout)` call (line 101). -/
  | scroll (scrollID timeout : String)
  /-- A `fmt.Fprintln(w, line)` call. -/
  | println (site : Site) (line : String)
  /-- The deferred `w.Flush()` (line 93). -/
  | flush

/-- Why the process was ended: the `log.Fatal`/`log.Fatalf` call taken, or the run-time
panic of line 83. -/
inductive Failure where
  /-- Line 67: the custom query is not a JSON object. -/
  | query
  /-- Line 83: run-time panic, assignment to an entry of a nil map (before the writer
  exists, so no deferred flush is involved). -/
  | nilMap
  /-- Line 75: `-1` together with `-raw`. -/
  | xorRaw
  /-- Line 79: `-1` with more than one field. -/
  | singleColumn (n : Nat)
  /-- Line 89: `conn.Scan` failed. -/
  | scan (e : String)
  /-- Line 106: `conn.Scroll` failed with an error other than `io.EOF`. -/
  | scroll (e : String)
  /-- Line 118: `json.Marshal` failed. -/
  | marshal
  /-- Line 157: unknown field type in response. -/
  | fieldType
  deriving DecidableEq

/-- How a run stands at the end of the scripted backend responses. -/
inductive Exit where
  /-- The function `main` returned (end of the loop or `return` at line 113); the
  deferred calls have run. -/
  | returned
  /-- The call `log.Fatal` ended the process through `os.Exit(1)`; deferred calls do not run. -/
  | fatal (f : Failure)
  /-- The run is blocked in a `conn.Scroll` call the script has no outcome for. -/
  | pending
  deriving DecidableEq

/-- A run: its events in program order and how it stands. -/
structure Result where
  log : List Event
  exit : Exit

/-! ## The program -/

/-- Lines 57-69: the default query, or the parsed custom one (`none`: `log.Fatal`). -/
def buildQuery (lib : Lib) (cfg : Config) : Option Query :=
  if cfg.queryString = "" then
    some (some [("query", JSON.obj [("match_all", JSON.obj [])])])
  else lib.Unmarshal cfg.queryString

/-- Lines 74-80: the two checks on the flags; `some f` is the `log.Fatal` taken. -/
def checkFlags (cfg : Config) (fields : List String) : Option Failure :=
  if cfg.raw && cfg.singleValue then some Failure.xorRaw
  else if cfg.singleValue && decide (fields.length > 1) then
    some (Failure.singleColumn fields.length)
  else none

/-- Lines 82-84: `query["fields"] = fields` unless raw; `none` is the panic of the
assignment when `query` is the nil map. -/
def withFields (cfg : Config) (fields : List String) (query : Query) : Option Query :=
  if !cfg.raw then
    match query with
    | none => none
    | some m => some (some (mapSet m "fields" (JSON.arr (fields.map JSON.str))))
  else some query

/-- Lines 141-155: the values appended to `c` for the elements of an array.  The inner
type switch has the cases `string`, `float64` and `bool` and no default. -/
def renderElems (lib : Lib) (cfg : Config) : List JSON → List String
  | [] => []
  | JSON.str s :: es =>
    (if s = "" && cfg.zeroAsNull then cfg.nullValue else s) :: renderElems lib cfg es
  | JSON.num x :: es => lib.FormatFloat x cfg.precision :: renderElems lib cfg es
  | JSON.bool b :: es => FormatBool b :: renderElems lib cfg es
  | _ :: es => renderElems lib cfg es

/-- Lines 126-159: the slice `c` for field `f` of a hit; `none` is the `log.Fatalf` of
line 157. -/
def resolve (lib : Lib) (cfg : Config) (hit : Hit) (f : String) : Option (List String) :=
  if f = "_id" then some [hit.ID]
  else if f = "_index" then some [hit.Index]
  else if f = "_type" then some [hit.Typ]
  else if f = "_score" then some [lib.FormatFloat hit.Score 6]
  else
    match hit.Fields.lookup f with
    | none => some [cfg.nullValue]
    | some JSON.null => some [cfg.nullValue]
    | some (JSON.arr es) => some (renderElems lib cfg es)
    | some _ => none

/-- Lines 125-167: the loop over the fields, from `columns = cols`.  It yields the lines
printed (single-value mode prints here) and the final `columns`, or `none` when a field
ended the run at line 157. -/
def fieldsLoop (lib : Lib) (cfg : Config) (hit : Hit) :
    List String → List String → List Event × Option (List String)
  | [], cols => ([], some cols)
  | f :: fs, cols =>
    match resolve lib cfg hit f with
    | none => ([], none)
    | some c =>
      if cfg.singleValue then
        ((c.map (Event.println Site.value)) ++ (fieldsLoop lib cfg hit fs cols).1,
          (fieldsLoop lib cfg hit fs cols).2)
      else fieldsLoop lib cfg hit fs (cols ++ [Join c cfg.separator])

/-- Lines 115-170: what is printed for one hit, and the failure that ended the run, if
any. -/
def emitHit (lib : Lib) (cfg : Config) (fields : List String) (hit : Hit) :
    List Event × Option Failure :=
  if cfg.raw then
    match lib.Marshal hit with
    | none => ([], some Failure.marshal)
    | some b => ([Event.println Site.raw b], none)
  else
    match fieldsLoop lib cfg hit fields [] with
    | (ev, none) => (ev, some Failure.fieldType)
    | (ev, some columns) =>
      (ev ++ (if !cfg.singleValue then [Event.println Site.row (Join columns cfg.delimiter)]
              else []), none)

/-- Lines 112-171: one iteration of the loop over the hits of a page, entered with
counter `i`.  `Except.ok j` continues with counter `j`; `Except.error x` ends the run.
In raw mode the iteration ends with `continue` (line 121), before `i++`. -/
def processHit (lib : Lib) (cfg : Config) (fields : List String) (hit : Hit) (i : Int) :
    List Event × Except Exit Int :=
  if i = cfg.limit then ([], Except.error Exit.returned)
  else
    match emitHit lib cfg fields hit with
    | (ev, some f) => (ev, Except.error (Exit.fatal f))
    | (ev, none) => (ev, Except.ok (if cfg.raw then i else wrapInt (i + 1)))

/-- Lines 111-172: the loop over the hits of a page. -/
def hitsLoop (lib : Lib) (cfg : Config) (fields : List String) :
    List Hit → Int → List Event × Except Exit Int
  | [], i => ([], Except.ok i)
  | hit :: hits, i =>
    match processHit lib cfg fields hit i with
    | (ev, Except.error x) => (ev, Except.error x)
    | (ev, Except.ok j) =>
      (ev ++ (hitsLoop lib cfg fields hits j).1, (hitsLoop lib cfg fields hits j).2)

/-- Lines 100-173: the scroll loop, always called with the cursor of the scan response. -/
def scrollLoop (lib : Lib) (cfg : Config) (fields : List String) (scrollID : String) :
    List ScrollResult → Int → List Event × Exit
  | [], _ => ([Event.scroll scrollID cfg.timeout], Exit.pending)
  | ScrollResult.eof :: _, _ => ([Event.scroll scrollID cfg.timeout], Exit.returned)
  | ScrollResult.err e :: _, _ =>
    ([Event.scroll scrollID cfg.timeout], Exit.fatal (Failure.scroll e))
  | ScrollResult.ok r :: rest, i =>
    if r.Hits.length = 0 then ([Event.scroll scrollID cfg.timeout], Exit.returned)
    else
      match hitsLoop lib cfg fields r.Hits i with
      | (ev, Except.error x) => (Event.scroll scrollID cfg.timeout :: ev, x)
      | (ev, Except.ok j) =>
        (Event.scroll scrollID cfg.timeout :: ev ++
            (scrollLoop lib cfg fields scrollID rest j).1,
          (scrollLoop lib cfg fields scrollID rest j).2)

/-- Lines 92-173: from the creation of the writer on; the deferred flush runs when the
function returns. -/
def stream (lib : Lib) (cfg : Config) (fields : List String) (scanResponse : Response)
    (scrolls : List ScrollResult) : Result :=
  let hdr := if cfg.header then [Event.println Site.header (Join fields cfg.delimiter)] else []
  let body := scrollLoop lib cfg fields scanResponse.ScrollID scrolls 0
  { log := hdr ++ body.1 ++ (if body.2 = Exit.returned then [Event.flush] else []),
    exit := body.2 }

/-- Lines 57-174 of `main`. -/
def main (lib : Lib) (cfg : Config) (be : Backend) : Result :=
  match buildQuery lib cfg with
  | none => { log := [], exit := Exit.fatal Failure.query }
  | some query =>
    let indices := Fields cfg.indicesString
    let fields := Fields cfg.fieldsString
    match checkFlags cfg fields with
    | some f => { log := [], exit := Exit.fatal f }
    | none =>
      match withFields cfg fields query with
      | none => { log := [], exit := Exit.fatal Failure.nilMap }
      | some submitted =>
        let req := Event.scan submitted indices cfg.timeout cfg.size
        match be.scan with
        | Except.error e => { log := [req], exit := Exit.fatal (Failure.scan e) }
        | Except.ok scanResponse =>
          { log := req :: (stream lib cfg fields scanResponse be.scrolls).log,
            exit := (stream lib cfg fields scanResponse be.scrolls).exit }

/-! ## The buffered writer -/

/-- A `bufio.Writer` on standard output: `buf` is the buffered data, `out` what the
underlying stream has received. -/
structure Writer where
  buf : List UInt8
  out : List UInt8
  deriving DecidableEq

/-- The buffer size of `bufio.NewWriter`. -/
def Writer.size : Nat := 4096

/-- The free space of the buffer. -/
def Writer.Available (w : Writer) : Nat := Writer.size - w.buf.length

/-- The call `Flush`: the buffered data is handed to the underlying stream. -/
def Writer.Flush (w : Writer) : Writer := { buf := [], out := w.out ++ w.buf }

/-- The call `Write(p)`: data that fits is buffered; otherwise the buffer is filled and
flushed (or, when it is empty, `p` is written through), and the same applies to the rest. -/
def Writer.Write (w : Writer) (p : List UInt8) : Writer :=
  if p.length ≤ w.Available then { w with buf := w.buf ++ p }
  else if w.buf.length = 0 then { w with out := w.out ++ p }
  else
    let n := w.Available
    let w1 : Writer := { buf := [], out := w.out ++ (w.buf ++ p.take n) }
    let p1 := p.drop n
    if p1.length ≤ Writer.size then { w1 with buf := p1 } else { w1 with out := w1.out ++ p1 }

/-- The UTF-8 bytes of a string. -/
def bytes (s : String) : List UInt8 := s.data.flatMap String.utf8EncodeChar

/-- The effect of one event on the writer; `Fprintln` writes the line and a newline in
one `Write`. -/
def Writer.exec (w : Writer) : Event → Writer
  | Event.println _ line => w.Write (bytes line ++ [10])
  | Event.flush => w.Flush
  | _ => w

/-- The bytes standard output has received when the run stands as `res` says. -/
def stdout (res : Result) : List UInt8 := (res.log.foldl Writer.exec ⟨[], []⟩).out

/-! ## Views of a log -/

/-- The lines printed, with the call that printed each. -/
def outputs : List Event → List (Site × String)
  | [] => []
  | Event.println site line :: es => (site, line) :: outputs es
  | _ :: es => outputs es

/-- The lines printed by the loop (every `Fprintln` but the header's). -/
def dataLines (log : List Event) : List String :=
  ((outputs log).filter (fun o => o.1 != Site.header)).map Prod.snd

/-- The `conn.Scroll` calls, as (cursor, timeout). -/
def scrollCalls : List Event → List (String × String)
  | [] => []
  | Event.scroll id t :: es => (id, t) :: scrollCalls es
  | _ :: es => scrollCalls es

/-- The number of `conn.Scan` calls. -/
def scanCalls : List Event → Nat
  | [] => 0
  | Event.scan _ _ _ _ :: es => scanCalls es + 1
  | _ :: es => scanCalls es

/-- The bytes a log writes to the writer, in order. -/
def written : List Event → List UInt8
  | [] => []
  | Event.println _ line :: es => bytes line ++ [10] ++ written es
  | _ :: es => written es

/-- The queries of the `conn.Scan` calls. -/
def scanQueries : List Event → List Query
  | [] => []
  | Event.scan q _ _ _ :: es => q :: scanQueries es
  | _ :: es => scanQueries es

/-! ## Notions used in the statements -/

/-- An event printed by the loop: a `Fprintln` other than the header's. -/
def Event.isData : Event → Bool
  | Event.println site _ => site != Site.header
  | _ => false

/-- The lines `main` prints for one record that it processes. -/
def hitLines (lib : Lib) (cfg : Config) (fields : List String) (hit : Hit) : List String :=
  dataLines (emitHit lib cfg fields hit).1

/-- The pages returned before the first empty page, `io.EOF` or error. -/
def pagesBefore : List ScrollResult → List (List Hit)
  | ScrollResult.ok r :: rest => if r.Hits.length = 0 then [] else r.Hits :: pagesBefore rest
  | _ => []

/-- The records of the pages returned before the first empty page, `io.EOF` or error, in
order. -/
def available (scrolls : List ScrollResult) : List Hit := (pagesBefore scrolls).flatMap id

/-- The run gets as far as creating the writer (line 92): the query is built, both flag
checks pass, the field list can be stored in the query and `conn.Scan` succeeds. -/
def reachesWriter (lib : Lib) (cfg : Config) (be : Backend) : Bool :=
  (match buildQuery lib cfg with
    | some query => (withFields cfg (Fields cfg.fieldsString) query).isSome
    | none => false) &&
  (checkFlags cfg (Fields cfg.fieldsString)).isNone &&
    (match be.scan with
      | Except.ok _ => true
      | Except.error _ => false)

/-- The column of field `f` in multi-column mode: its resolved values joined by the
separator. -/
def column (lib : Lib) (cfg : Config) (hit : Hit) (f : String) : String :=
  Join ((resolve lib cfg hit f).getD []) cfg.separator

/-- The rendering of one array element in the spec's words: a string element is the null
sentinel if it is empty and zero-as-null is enabled, and itself otherwise; a numeric
element is rendered as fixed-point with the configured precision; a boolean element is
the literal text `true` or `false`; for any other element there is no rendered value. -/
def specRender (lib : Lib) (cfg : Config) : JSON → Option String
  | JSON.str s => some (if s = "" ∧ cfg.zeroAsNull = true then cfg.nullValue else s)
  | JSON.num x => some (lib.FormatFloat x cfg.precision)
  | JSON.bool true => some "true"
  | JSON.bool false => some "false"
  | _ => none

/-- The default query of lines 59-63: match everything. -/
def matchAll : JMap := [("query", JSON.obj [("match_all", JSON.obj [])])]

/-- A scroll outcome with the cursor token of its response replaced through `g`. -/
def mapCursor (g : String → String) : ScrollResult → ScrollResult
  | ScrollResult.ok r => ScrollResult.ok { r with ScrollID := g r.ScrollID }
  | x => x

/-- The configuration with the field list, null sentinel, separator, delimiter,
zero-as-null and precision settings replaced. -/
def Config.withFormat (cfg : Config) (fs nv sp dl : String) (z : Bool) (p : Int) : Config :=
  { cfg with
    fieldsString := fs
    nullValue := nv
    separator := sp
    delimiter := dl
    zeroAsNull := z
    precision := p }

/-- The records of a list of pages, in order. -/
def recordsOf (pages : List Response) : List Hit := pages.flatMap (fun r => r.Hits)

/-- The events of the loop body for a list of records that are all processed. -/
def hitEvents (lib : Lib) (cfg : Config) (fields : List String) (hits : List Hit) : List Event :=
  hits.flatMap (fun hit => (emitHit lib cfg fields hit).1)

/-- The events of the scroll loop for a list of pages whose records are all processed:
for each page the scroll request, then the events of its records. -/
def pageEvents (lib : Lib) (cfg : Config) (fields : List String) (id : String)
    (pages : List Response) : List Event :=
  pages.flatMap (fun r => Event.scroll id cfg.timeout :: hitEvents lib cfg fields r.Hits)

/-- How a run stands after the scroll request issued with the counter at the limit, given
the outcomes that are left: an error other than `io.EOF` is fatal, any page and `io.EOF`
end the run normally, and without an outcome the request is still pending. -/
def afterLimit : List ScrollResult → Exit
  | [] => Exit.pending
  | ScrollResult.err e :: _ => Exit.fatal (Failure.scroll e)
  | _ => Exit.returned

/-! ## Sample data for concrete runs -/

/-- A choice of the library functions for evaluating concrete runs.  The runs that use it
hold no number and no custom query, and a raw line shows the identifier of its record. -/
def sampleLib : Lib where
  FormatFloat := fun _ _ => "0"
  Marshal := fun hit => some hit.ID
  Unmarshal := fun _ => none

/-- A record whose field `a` is `["x"]`. -/
def hitX : Hit := ⟨"idx", "doc", "1", ⟨0⟩, [("a", JSON.arr [JSON.str "x"])], []⟩

/-- A record whose field `a` is one string with a tab inside. -/
def hitTab : Hit := ⟨"idx", "doc", "2", ⟨0⟩, [("a", JSON.arr [JSON.str "y\tz"])], []⟩

/-- A record whose field `a` is a bare string, not an array. -/
def hitBare : Hit := ⟨"idx", "doc", "3", ⟨0⟩, [("a", JSON.str "bare")], []⟩

/-- A record whose field `a` is `["s", {"k": null}]`. -/
def hitObj : Hit :=
  ⟨"idx", "doc", "4", ⟨0⟩, [("a", JSON.arr [JSON.str "s", JSON.obj [("k", JSON.null)]])], []⟩

/-- A backend that answers the scan, then returns `hits` as one page, then `io.EOF`. -/
def onePage (hits : List Hit) : Backend :=
  ⟨Except.ok ⟨"c0", []⟩, [ScrollResult.ok ⟨"c1", hits⟩, ScrollResult.eof]⟩

/-- The flags `-f tags -zero-as-null -null NA`. -/
def tagsConfig : Config :=
  { defaults with fieldsString := "tags", zeroAsNull := true, nullValue := "NA" }

/-- The flags `-1 -f a -limit 1`. -/
def singleConfig : Config :=
  { defaults with singleValue := true, fieldsString := "a", limit := 1 }

/-- The flags `-1 -f a`, with the default limit -1. -/
def singleUnlimited : Config := { defaults with singleValue := true, fieldsString := "a" }

/-- The flags `-raw`. -/
def rawConfig : Config := { defaults with raw := true }

/-- The flags `-f a`. -/
def fieldConfig : Config := { defaults with fieldsString := "a" }

/-- The flags `-f a -limit 1`. -/
def limitOneConfig : Config := { defaults with fieldsString := "a", limit := 1 }

/-- The flags `-query q -f a`. -/
def customConfig : Config := { defaults with queryString := "q", fieldsString := "a" }

/-- A library whose `json.Unmarshal` yields, for every document, the object with the two
keys `size` and `fields`; used to evaluate a run with a custom query. -/
def customLib : Lib :=
  { sampleLib with
    Unmarshal := fun _ =>
      some (some [("size", JSON.str "5"), ("fields", JSON.arr [JSON.str "old"])]) }

/-- A record whose field `tags` is `["a", "", "b"]`. -/
def hitTags : Hit :=
  ⟨"idx", "doc", "5", ⟨0⟩, [("tags", JSON.arr [JSON.str "a", JSON.str "", JSON.str "b"])], []⟩

/-- A record whose field `a` is the empty array. -/
def hitEmpty : Hit := ⟨"idx", "doc", "6", ⟨0⟩, [("a", JSON.arr [])], []⟩

/-- A record whose field `a` is `["x", "y", "z"]`. -/
def hitThree : Hit :=
  ⟨"idx", "doc", "7", ⟨0⟩, [("a", JSON.arr [JSON.str "x", JSON.str "y", JSON.str "z"])], []⟩

/-- A record whose field `a` is the object `{"k": "v"}`. -/
def hitNested : Hit := ⟨"idx", "doc", "8", ⟨0⟩, [("a", JSON.obj [("k", JSON.str "v")])], []⟩

/-- A backend with three pages; the second page holds, between two good records, a
record with a nested object as the value of field `a`. -/
def nestedBackend : Backend :=
  ⟨Except.ok ⟨"c0", []⟩,
    [ScrollResult.ok ⟨"c1", [hitX]⟩, ScrollResult.ok ⟨"c2", [hitTab, hitNested, hitThree]⟩,
      ScrollResult.ok ⟨"c3", [hitX]⟩]⟩

/-- A backend whose first page holds exactly one record and whose second scroll request
fails with an error other than `io.EOF`. -/
def errorAfterPage : Backend :=
  ⟨Except.ok ⟨"c0", []⟩, [ScrollResult.ok ⟨"c1", [hitX]⟩, ScrollResult.err "timeout"]⟩

/-! ## Lemmas on the views of a log -/

theorem outputs_append (a b : List Event) : outputs (a ++ b) = outputs a ++ outputs b := by
  induction a with
  | nil => rfl
  | cons e es ih => cases e <;> simp [outputs, ih]

theorem dataLines_append (a b : List Event) :
    dataLines (a ++ b) = dataLines a ++ dataLines b := by
  simp [dataLines, outputs_append]

theorem scrollCalls_append (a b : List Event) :
    scrollCalls (a ++ b) = scrollCalls a ++ scrollCalls b := by
  induction a with
  | nil => rfl
  | cons e es ih => cases e <;> simp [scrollCalls, ih]

theorem outputs_of_isData (ev : List Event) (h : ∀ e ∈ ev, e.isData = true) :
    ∀ o ∈ outputs ev, o.1 ≠ Site.header := by
  induction ev with
  | nil => simp [outputs]
  | cons e es ih =>
    have hes : ∀ e ∈ es, e.isData = true := fun x hx => h x (List.mem_cons_of_mem _ hx)
    have he := h e (List.mem_cons_self _ _)
    cases e with
    | println site line =>
      intro o ho
      simp only [outputs, List.mem_cons] at ho
      rcases ho with rfl | ho
      · simpa [Event.isData] using he
      · exact ih hes o ho
    | scan q ix t n => simp [Event.isData] at he
    | scroll c t => simp [Event.isData] at he
    | flush => simp [Event.isData] at he

theorem scrollCalls_of_isData (ev : List Event) (h : ∀ e ∈ ev, e.isData = true) :
    scrollCalls ev = [] := by
  induction ev with
  | nil => rfl
  | cons e es ih =>
    have hes : ∀ e ∈ es, e.isData = true := fun x hx => h x (List.mem_cons_of_mem _ hx)
    have he := h e (List.mem_cons_self _ _)
    cases e with
    | println site line => simpa [scrollCalls] using ih hes
    | scan q ix t n => simp [Event.isData] at he
    | scroll c t => simp [Event.isData] at he
    | flush => simp [Event.isData] at he

/-! ## What the loop bodies print -/

theorem fieldsLoop_isData (lib : Lib) (cfg : Config) (hit : Hit) (fs cols : List String) :
    ∀ e ∈ (fieldsLoop lib cfg hit fs cols).1, e.isData = true := by
  induction fs generalizing cols with
  | nil => simp [fieldsLoop]
  | cons f fs ih =>
    unfold fieldsLoop
    cases hr : resolve lib cfg hit f with
    | none => simp
    | some c =>
      by_cases hs : cfg.singleValue = true
      · simp only [hs, if_true, List.mem_append, List.mem_map]
        rintro e (⟨v, _, rfl⟩ | he)
        · rfl
        · exact ih cols e he
      · simp only [hs]
        exact ih _

theorem emitHit_isData (lib : Lib) (cfg : Config) (fields : List String) (hit : Hit) :
    ∀ e ∈ (emitHit lib cfg fields hit).1, e.isData = true := by
  unfold emitHit
  by_cases hraw : cfg.raw = true
  · simp only [hraw, if_true]
    cases lib.Marshal hit with
    | none => simp
    | some b => simp [Event.isData]
  · simp only [hraw]
    have hf := fieldsLoop_isData lib cfg hit fields []
    rcases hfl : fieldsLoop lib cfg hit fields [] with ⟨ev, _ | columns⟩
    · rw [hfl] at hf; simpa using hf
    · rw [hfl] at hf
      intro e he
      replace he : e ∈ ev ++ (if (!cfg.singleValue) = true then
          [Event.println Site.row (Join columns cfg.delimiter)] else []) := he
      rw [List.mem_append] at he
      rcases he with he | he
      · exact hf e he
      · by_cases hs : cfg.singleValue = true
        · simp [hs] at he
        · simp [hs] at he; subst he; rfl

theorem processHit_isData (lib : Lib) (cfg : Config) (fields : List String) (hit : Hit)
    (i : Int) : ∀ e ∈ (processHit lib cfg fields hit i).1, e.isData = true := by
  unfold processHit
  by_cases hi : i = cfg.limit
  · simp [hi]
  · simp only [hi, if_false]
    have h := emitHit_isData lib cfg fields hit
    rcases he : emitHit lib cfg fields hit with ⟨ev, _ | f⟩ <;> (rw [he] at h; simpa using h)

theorem hitsLoop_isData (lib : Lib) (cfg : Config) (fields : List String) (hits : List Hit)
    (i : Int) : ∀ e ∈ (hitsLoop lib cfg fields hits i).1, e.isData = true := by
  induction hits generalizing i with
  | nil => simp [hitsLoop]
  | cons hit hits ih =>
    unfold hitsLoop
    have h := processHit_isData lib cfg fields hit i
    rcases hp : processHit lib cfg fields hit i with ⟨ev, x | j⟩
    · rw [hp] at h; simpa using h
    · rw [hp] at h
      simp only [List.mem_append]
      rintro e (he | he)
      · exact h e he
      · exact ih j e he

theorem scrollLoop_outputs (lib : Lib) (cfg : Config) (fields : List String) (id : String)
    (scrolls : List ScrollResult) (i : Int) :
    ∀ o ∈ outputs (scrollLoop lib cfg fields id scrolls i).1, o.1 ≠ Site.header := by
  induction scrolls generalizing i with
  | nil => simp [scrollLoop, outputs]
  | cons s rest ih =>
    cases s with
    | eof => simp [scrollLoop, outputs]
    | err e => simp [scrollLoop, outputs]
    | ok r =>
      unfold scrollLoop
      by_cases h0 : r.Hits.length = 0
      · simp [h0, outputs]
      · simp only [h0, if_false]
        have h := outputs_of_isData _ (hitsLoop_isData lib cfg fields r.Hits i)
        rcases hp : hitsLoop lib cfg fields r.Hits i with ⟨ev, x | j⟩
        · rw [hp] at h; simpa [outputs] using h
        · rw [hp] at h
          intro o ho
          replace ho : o ∈ outputs (Event.scroll id cfg.timeout ::
              (ev ++ (scrollLoop lib cfg fields id rest j).1)) := ho
          simp only [outputs, outputs_append, List.mem_append] at ho
          rcases ho with ho | ho
          · exact h o ho
          · exact ih j o ho

/-! ## The claims -/

/-- C1 (the code at the failing input): in raw mode with limit 1 and a page of two
records, the run returns normally after printing both records, one more than the limit:
the raw branch leaves the loop body with `continue` before the counter is incremented. -/
theorem raw_mode_exceeds_limit :
    (main sampleLib { defaults with raw := true, limit := 1 } (onePage [hitX, hitTab])).exit
      = Exit.returned ∧
    outputs (main sampleLib { defaults with raw := true, limit := 1 }
      (onePage [hitX, hitTab])).log = [(Site.raw, "1"), (Site.raw, "2")] ∧
    (hitsLoop sampleLib { defaults with raw := true, limit := 1 } ["_id", "_index"]
      [hitX, hitTab] 0).2 = Except.ok 0 :=
  ⟨by decide, by decide, rfl⟩

/-- C2 (counterexample): with `-raw -header` the header line is printed, first, although
the mode is raw. -/
theorem header_printed_in_raw_mode :
    ¬ (({ defaults with raw := true, header := true } : Config).raw = true →
        ∀ o ∈ outputs (main sampleLib { defaults with raw := true, header := true }
          (onePage [hitX])).log, o.1 ≠ Site.header) := by
  decide

/-- C2 (amended): in every mode, raw included, a run that gets as far as creating the
writer prints the header line (the field names joined by the delimiter) if and only if
the header option is set; the header is then the first line printed and no later line is
a header; a run that ends earlier prints no header. -/
theorem header_once_first (lib : Lib) (cfg : Config) (be : Backend) :
    ∃ rest : List (Site × String), (∀ o ∈ rest, o.1 ≠ Site.header) ∧
      outputs (main lib cfg be).log =
        (if reachesWriter lib cfg be = true ∧ cfg.header = true then
          [(Site.header, Join (Fields cfg.fieldsString) cfg.delimiter)] else []) ++ rest := by
  unfold main reachesWriter
  cases hq : buildQuery lib cfg with
  | none => exact ⟨[], by simp, by simp [outputs]⟩
  | some query =>
    cases hc : checkFlags cfg (Fields cfg.fieldsString) with
    | some f => exact ⟨[], by simp, by simp [outputs, hc]⟩
    | none =>
      cases hw : withFields cfg (Fields cfg.fieldsString) query with
      | none => exact ⟨[], by simp, by simp [outputs, hc, hw]⟩
      | some submitted =>
        cases hs : be.scan with
        | error e => exact ⟨[], by simp, by simp [outputs, hc, hw]⟩
        | ok resp =>
          refine ⟨outputs (scrollLoop lib cfg (Fields cfg.fieldsString) resp.ScrollID
            be.scrolls 0).1, scrollLoop_outputs _ _ _ _ _ _, ?_⟩
          by_cases hh : cfg.header = true
          · by_cases hr : (scrollLoop lib cfg (Fields cfg.fieldsString) resp.ScrollID
                be.scrolls 0).2 = Exit.returned <;>
              simp [stream, outputs, outputs_append, hh, hr, hc, hw]
          · by_cases hr : (scrollLoop lib cfg (Fields cfg.fieldsString) resp.ScrollID
                be.scrolls 0).2 = Exit.returned <;>
              simp [stream, outputs, outputs_append, hh, hr, hc, hw]

/-- C3 (the code at the failing input): field `a` holds `["s", {"k": null}]`; the object
element is passed over without any error, the field resolves to `["s"]`, the row `s` is
printed and the run returns normally. -/
theorem object_element_skipped :
    resolve sampleLib { defaults with fieldsString := "a" } hitObj "a" = some ["s"] ∧
    outputs (main sampleLib { defaults with fieldsString := "a" } (onePage [hitObj])).log
      = [(Site.row, "s")] ∧
    (main sampleLib { defaults with fieldsString := "a" } (onePage [hitObj])).exit
      = Exit.returned := by
  decide

/-- C4 (the code at the failing input): the row of the first record is written to the
buffer, the second record ends the run at `log.Fatalf`, and standard output has
received nothing: `os.Exit` does not run the deferred `w.Flush()`.  The same happens
when a scroll request fails after a page was printed. -/
theorem fatal_exit_loses_buffer :
    (main sampleLib { defaults with fieldsString := "a" } (onePage [hitX, hitBare])).exit
      = Exit.fatal Failure.fieldType ∧
    outputs (main sampleLib { defaults with fieldsString := "a" }
      (onePage [hitX, hitBare])).log = [(Site.row, "x")] ∧
    stdout (main sampleLib { defaults with fieldsString := "a" } (onePage [hitX, hitBare]))
      = [] ∧
    (main sampleLib { defaults with fieldsString := "a" }
      ⟨Except.ok ⟨"c0", []⟩, [ScrollResult.ok ⟨"c1", [hitX]⟩, ScrollResult.err "timeout"]⟩).exit
      = Exit.fatal (Failure.scroll "timeout") ∧
    stdout (main sampleLib { defaults with fieldsString := "a" }
      ⟨Except.ok ⟨"c0", []⟩, [ScrollResult.ok ⟨"c1", [hitX]⟩, ScrollResult.err "timeout"]⟩)
      = [] ∧
    stdout (main sampleLib { defaults with fieldsString := "a" } (onePage [hitX]))
      = bytes "x\n" := by
  decide

/-- C5 (the code at the failing input): single-value mode with an empty field list
passes both flag checks; the run sends the scan request, scrolls and returns normally. -/
theorem single_value_accepts_no_field :
    Fields "" = [] ∧
    checkFlags { defaults with singleValue := true, fieldsString := "" } (Fields "") = none ∧
    scanCalls (main sampleLib { defaults with singleValue := true, fieldsString := "" }
      (onePage [hitX])).log = 1 ∧
    (main sampleLib { defaults with singleValue := true, fieldsString := "" }
      (onePage [hitX])).exit = Exit.returned := by
  decide

/-- C6: when raw mode and single-value mode are both set, or single-value mode is set
with more than one field, the run ends in `log.Fatal` (for one of the two flag checks, or
already for an unparsable custom query) with an empty log (no scan request, no scroll
request, no line printed, header included) and nothing on standard output. -/
theorem config_error_before_effects (lib : Lib) (cfg : Config) (be : Backend)
    (h : (cfg.raw = true ∧ cfg.singleValue = true) ∨
      (cfg.singleValue = true ∧ (Fields cfg.fieldsString).length > 1)) :
    (∃ f, (main lib cfg be).exit = Exit.fatal f ∧ (f = Failure.query ∨ f = Failure.xorRaw ∨
        f = Failure.singleColumn (Fields cfg.fieldsString).length)) ∧
      (main lib cfg be).log = [] ∧
      scanCalls (main lib cfg be).log = 0 ∧ scrollCalls (main lib cfg be).log = [] ∧
      outputs (main lib cfg be).log = [] ∧ stdout (main lib cfg be) = [] := by
  have hc : ∃ f, checkFlags cfg (Fields cfg.fieldsString) = some f ∧
      (f = Failure.xorRaw ∨ f = Failure.singleColumn (Fields cfg.fieldsString).length) := by
    unfold checkFlags
    rcases h with ⟨h1, h2⟩ | ⟨h1, h2⟩
    · exact ⟨Failure.xorRaw, by simp [h1, h2], Or.inl rfl⟩
    · by_cases hr : cfg.raw = true
      · exact ⟨Failure.xorRaw, by simp [hr, h1], Or.inl rfl⟩
      · exact ⟨Failure.singleColumn (Fields cfg.fieldsString).length, by simp [hr, h1, h2],
          Or.inr rfl⟩
  obtain ⟨f, hf, hk⟩ := hc
  have hm : (∃ g, (main lib cfg be).exit = Exit.fatal g ∧ (g = Failure.query ∨
      g = Failure.xorRaw ∨ g = Failure.singleColumn (Fields cfg.fieldsString).length)) ∧
      (main lib cfg be).log = [] := by
    unfold main
    cases buildQuery lib cfg with
    | none => exact ⟨⟨Failure.query, rfl, Or.inl rfl⟩, rfl⟩
    | some q => simp only [hf]; exact ⟨⟨f, rfl, Or.inr hk⟩, trivial⟩
  refine ⟨hm.1, hm.2, ?_, ?_, ?_, ?_⟩ <;> simp [hm.2, stdout, scanCalls, scrollCalls, outputs]

/-- C6 (witness): `-1` with the default two fields. -/
theorem config_error_before_effects_witness :
    (∃ f, (main sampleLib { defaults with singleValue := true } (onePage [hitX])).exit
        = Exit.fatal f ∧ (f = Failure.query ∨ f = Failure.xorRaw ∨ f = Failure.singleColumn
          (Fields ({ defaults with singleValue := true } : Config).fieldsString).length)) ∧
      (main sampleLib { defaults with singleValue := true } (onePage [hitX])).log = [] ∧
      scanCalls (main sampleLib { defaults with singleValue := true } (onePage [hitX])).log = 0 ∧
      scrollCalls (main sampleLib { defaults with singleValue := true } (onePage [hitX])).log
        = [] ∧
      outputs (main sampleLib { defaults with singleValue := true } (onePage [hitX])).log = [] ∧
      stdout (main sampleLib { defaults with singleValue := true } (onePage [hitX])) = [] :=
  config_error_before_effects sampleLib { defaults with singleValue := true } (onePage [hitX])
    (Or.inr ⟨rfl, by decide⟩)

/-! ## Multi-column rows -/

theorem fieldsLoop_columns (lib : Lib) (cfg : Config) (hit : Hit)
    (hs : cfg.singleValue = false) (fs cols : List String)
    (h : ∀ f ∈ fs, (resolve lib cfg hit f).isSome = true) :
    fieldsLoop lib cfg hit fs cols = ([], some (cols ++ fs.map (column lib cfg hit))) := by
  induction fs generalizing cols with
  | nil => simp [fieldsLoop]
  | cons f fs ih =>
    have hf := h f (List.mem_cons_self _ _)
    have hfs : ∀ g ∈ fs, (resolve lib cfg hit g).isSome = true :=
      fun g hg => h g (List.mem_cons_of_mem _ hg)
    unfold fieldsLoop
    cases hr : resolve lib cfg hit f with
    | none => simp [hr] at hf
    | some c =>
      simp only [hs, Bool.false_eq_true, if_false]
      rw [ih _ hfs]
      simp [column, hr]

theorem emitHit_row (lib : Lib) (cfg : Config) (fields : List String) (hit : Hit)
    (hraw : cfg.raw = false) (hs : cfg.singleValue = false)
    (h : ∀ f ∈ fields, (resolve lib cfg hit f).isSome = true) :
    emitHit lib cfg fields hit =
      ([Event.println Site.row (Join (fields.map (column lib cfg hit)) cfg.delimiter)],
        none) := by
  unfold emitHit
  simp [hraw, hs, fieldsLoop_columns lib cfg hit hs fields [] h]

/-! ## Splitting a joined line -/

theorem splitAux_pass (d : Char) (a rest cur : List Char) (h : d ∉ a) :
    splitAux [d] 0 (a ++ rest) cur = splitAux [d] 0 rest (a.reverse ++ cur) := by
  induction a generalizing cur with
  | nil => simp
  | cons c cs ih =>
    have hc : d ≠ c := fun e => h (e ▸ List.mem_cons_self _ _)
    have hcs : d ∉ cs := fun e => h (List.mem_cons_of_mem _ e)
    simp only [List.cons_append, splitAux, List.isPrefixOf, beq_iff_eq, Bool.and_true, hc,
      if_false, List.append_eq]
    rw [ih _ hcs]
    simp

theorem splitAux_join (d : Char) (a : String) (rest : List String) (cur : List Char)
    (h : ∀ c ∈ a :: rest, d ∉ c.data) :
    splitAux [d] 0 (Join (a :: rest) (String.mk [d])).data cur =
      (cur.reverse ++ a.data) :: rest.map String.data := by
  induction rest generalizing a cur with
  | nil =>
    have ha := h a (List.mem_cons_self _ _)
    have := splitAux_pass d a.data [] cur ha
    simp only [List.append_nil] at this
    simp [Join, this, splitAux]
  | cons b r ih =>
    have ha := h a (List.mem_cons_self _ _)
    have hb : ∀ c ∈ b :: r, d ∉ c.data := fun c hc => h c (List.mem_cons_of_mem _ hc)
    simp only [Join, String.data_append, List.append_assoc]
    rw [splitAux_pass d a.data _ cur ha]
    simp only [List.singleton_append, splitAux, List.isPrefixOf, beq_self_eq_true,
      Bool.and_true, if_true, List.length_singleton, Nat.sub_self, List.append_eq,
      List.nil_append]
    rw [ih b [] hb]
    simp

theorem Split_Join (d : Char) (cols : List String) (hne : cols ≠ [])
    (h : ∀ c ∈ cols, d ∉ c.data) :
    Split (Join cols (String.mk [d])) (String.mk [d]) = cols := by
  cases cols with
  | nil => exact absurd rfl hne
  | cons a rest =>
    unfold Split
    simp only [List.isEmpty_cons, Bool.false_eq_true, if_false]
    rw [splitAux_join d a rest [] h]
    have hid : (String.mk ∘ String.data) = id := funext fun _ => rfl
    simp [hid]

/-- C7: in multi-column mode, for a record all of whose requested fields resolve, the
loop body prints exactly one line; it is the delimiter-join of a list of as many columns
as there are fields, and the column at each position is the separator-join of the values
resolved for the field at that position. -/
theorem multi_column_row (lib : Lib) (cfg : Config) (fields : List String) (hit : Hit)
    (hraw : cfg.raw = false) (hs : cfg.singleValue = false)
    (h : ∀ f ∈ fields, (resolve lib cfg hit f).isSome = true) :
    ∃ columns : List String,
      emitHit lib cfg fields hit =
        ([Event.println Site.row (Join columns cfg.delimiter)], none) ∧
      columns.length = fields.length ∧
      ∀ (k : Nat) (f : String), fields[k]? = some f →
        columns[k]? = some (Join ((resolve lib cfg hit f).getD []) cfg.separator) := by
  refine ⟨fields.map (column lib cfg hit), emitHit_row lib cfg fields hit hraw hs h, by simp,
    ?_⟩
  intro k f hk
  simp [List.getElem?_map, hk, column]

/-- C7 (witness): the fields `a` and `_id` of a record with `a = ["x"]`. -/
theorem multi_column_row_witness :
    ∃ columns : List String,
      emitHit sampleLib defaults ["a", "_id"] hitX =
        ([Event.println Site.row (Join columns defaults.delimiter)], none) ∧
      columns.length = ["a", "_id"].length ∧
      ∀ (k : Nat) (f : String), ["a", "_id"][k]? = some f →
        columns[k]? = some (Join ((resolve sampleLib defaults hitX f).getD [])
          defaults.separator) :=
  multi_column_row sampleLib defaults ["a", "_id"] hitX rfl rfl (by decide)

/-- C8 (counterexample): one field, whose only value holds a tab; the line printed for
the record splits at the tab delimiter into two columns, not one.  (With no field at all
the line is empty and splits into one column, not zero.) -/
theorem split_row_two_columns :
    emitHit sampleLib defaults ["a"] hitTab = ([Event.println Site.row "y\tz"], none) ∧
    (Split "y\tz" defaults.delimiter).length = 2 ∧
    ¬ ((Split "y\tz" defaults.delimiter).length = ["a"].length) ∧
    emitHit sampleLib defaults [] hitTab = ([Event.println Site.row ""], none) ∧
    (Split "" defaults.delimiter).length = 1 :=
  ⟨rfl, by decide, by decide, rfl, by decide⟩

/-- C8 (amended): in multi-column mode, when the field list is not empty, the delimiter
is a single character and no column holds that character, the line printed for a record
whose fields all resolve splits at the delimiter into exactly the columns, so into as
many pieces as there are fields. -/
theorem split_row_columns (lib : Lib) (cfg : Config) (fields : List String) (hit : Hit)
    (d : Char) (hraw : cfg.raw = false) (hs : cfg.singleValue = false)
    (h : ∀ f ∈ fields, (resolve lib cfg hit f).isSome = true)
    (hne : fields ≠ []) (hd : cfg.delimiter = String.mk [d])
    (hfree : ∀ f ∈ fields, d ∉ (column lib cfg hit f).data) :
    ∃ line, emitHit lib cfg fields hit = ([Event.println Site.row line], none) ∧
      Split line cfg.delimiter = fields.map (column lib cfg hit) ∧
      (Split line cfg.delimiter).length = fields.length := by
  have hsplit : Split (Join (fields.map (column lib cfg hit)) cfg.delimiter) cfg.delimiter
      = fields.map (column lib cfg hit) := by
    rw [hd]
    apply Split_Join
    · simpa using hne
    · intro c hc
      obtain ⟨f, hf, rfl⟩ := List.mem_map.mp hc
      exact hfree f hf
  exact ⟨_, emitHit_row lib cfg fields hit hraw hs h, hsplit, by rw [hsplit]; simp⟩

/-- C8 (witness): the fields `a` and `_id` of a record with `a = ["x"]`, tab delimiter. -/
theorem split_row_columns_witness :
    ∃ line, emitHit sampleLib defaults ["a", "_id"] hitX =
        ([Event.println Site.row line], none) ∧
      Split line defaults.delimiter = ["a", "_id"].map (column sampleLib defaults hitX) ∧
      (Split line defaults.delimiter).length = ["a", "_id"].length :=
  split_row_columns sampleLib defaults ["a", "_id"] hitX '\t' rfl rfl (by decide)
    (by decide) rfl (by decide)

/-- C9: a field with a non-reserved name that is absent from the record's field map, or
mapped to null, resolves to the one-element sequence holding the null sentinel, whatever
the other options are. -/
theorem null_sentinel (lib : Lib) (cfg : Config) (hit : Hit) (f : String)
    (h1 : f ≠ "_id") (h2 : f ≠ "_index") (h3 : f ≠ "_type") (h4 : f ≠ "_score")
    (h : hit.Fields.lookup f = none ∨ hit.Fields.lookup f = some JSON.null) :
    resolve lib cfg hit f = some [cfg.nullValue] := by
  unfold resolve
  rcases h with h | h <;> simp [h1, h2, h3, h4, h]

/-- C9 (witness): field `b` is absent from a record that has only field `a`. -/
theorem null_sentinel_witness :
    resolve sampleLib defaults hitX "b" = some [defaults.nullValue] :=
  null_sentinel sampleLib defaults hitX "b" (by decide) (by decide) (by decide) (by decide)
    (Or.inl rfl)

/-! ## The lines of a run -/

theorem processHit_cases (lib : Lib) (cfg : Config) (fields : List String) (hit : Hit)
    (i : Int) :
    processHit lib cfg fields hit i = ([], Except.error Exit.returned) ∨
    (∃ ev f, processHit lib cfg fields hit i = (ev, Except.error (Exit.fatal f))) ∨
    (∃ j, processHit lib cfg fields hit i = ((emitHit lib cfg fields hit).1, Except.ok j)) := by
  unfold processHit
  by_cases hi : i = cfg.limit
  · left; simp [hi]
  · right
    simp only [hi, if_false]
    rcases he : emitHit lib cfg fields hit with ⟨ev, _ | f⟩
    · right; exact ⟨_, rfl⟩
    · left; exact ⟨ev, f, rfl⟩

theorem hitsLoop_lines (lib : Lib) (cfg : Config) (fields : List String) (hits : List Hit)
    (i : Int) :
    (∀ j, (hitsLoop lib cfg fields hits i).2 = Except.ok j →
      dataLines (hitsLoop lib cfg fields hits i).1 = hits.flatMap (hitLines lib cfg fields)) ∧
    ((hitsLoop lib cfg fields hits i).2 = Except.error Exit.returned →
      ∃ pre, pre <+: hits ∧
        dataLines (hitsLoop lib cfg fields hits i).1 = pre.flatMap (hitLines lib cfg fields)) := by
  induction hits generalizing i with
  | nil =>
    refine ⟨fun j _ => by simp [hitsLoop, dataLines, outputs], fun h => ?_⟩
    simp [hitsLoop] at h
  | cons hit hits ih =>
    unfold hitsLoop
    rcases processHit_cases lib cfg fields hit i with hp | ⟨ev, f, hp⟩ | ⟨j, hp⟩
    · rw [hp]
      refine ⟨fun j h => by simp at h, fun _ => ⟨[], List.nil_prefix, ?_⟩⟩
      simp [dataLines, outputs]
    · rw [hp]
      exact ⟨fun j h => by simp at h, fun h => by simp at h⟩
    · rw [hp]
      obtain ⟨ih1, ih2⟩ := ih j
      constructor
      · intro j2 h
        have := ih1 j2 h
        simp only [dataLines_append, this, List.flatMap_cons, hitLines]
      · intro h
        obtain ⟨pre, hpre, hl⟩ := ih2 h
        refine ⟨hit :: pre, ?_, ?_⟩
        · exact (List.prefix_cons_inj hit).mpr hpre
        · simp only [dataLines_append, hl, List.flatMap_cons, hitLines]

theorem scrollLoop_lines (lib : Lib) (cfg : Config) (fields : List String) (id : String)
    (scrolls : List ScrollResult) (i : Int)
    (h : (scrollLoop lib cfg fields id scrolls i).2 = Exit.returned) :
    ∃ pre, pre <+: available scrolls ∧
      dataLines (scrollLoop lib cfg fields id scrolls i).1
        = pre.flatMap (hitLines lib cfg fields) ∧
      (scrollCalls (scrollLoop lib cfg fields id scrolls i).1).length
        ≤ (pagesBefore scrolls).length + 1 := by
  induction scrolls generalizing i with
  | nil => simp [scrollLoop] at h
  | cons s rest ih =>
    cases s with
    | eof =>
      exact ⟨[], List.nil_prefix, by simp [scrollLoop, dataLines, outputs],
        by simp [scrollLoop, scrollCalls]⟩
    | err e => simp [scrollLoop] at h
    | ok r =>
      unfold scrollLoop at h ⊢
      by_cases h0 : r.Hits.length = 0
      · simp only [h0, if_true]
        exact ⟨[], List.nil_prefix, by simp [dataLines, outputs], by simp [scrollCalls]⟩
      · simp only [h0, if_false] at h ⊢
        have hav : available (ScrollResult.ok r :: rest) = r.Hits ++ available rest := by
          simp [available, pagesBefore, h0]
        have hpb : (pagesBefore (ScrollResult.ok r :: rest)).length
            = (pagesBefore rest).length + 1 := by
          simp [pagesBefore, h0]
        have hdata := hitsLoop_isData lib cfg fields r.Hits i
        have hlines := hitsLoop_lines lib cfg fields r.Hits i
        rcases hp : hitsLoop lib cfg fields r.Hits i with ⟨ev, x | j⟩
        · rw [hp] at h hdata hlines
          have hx : x = Exit.returned := h
          subst hx
          obtain ⟨pre, hpre, hl⟩ := hlines.2 rfl
          refine ⟨pre, ?_, ?_, ?_⟩
          · rw [hav]; exact hpre.trans (List.prefix_append _ _)
          · simpa [dataLines, outputs] using hl
          · simp [scrollCalls, scrollCalls_of_isData ev hdata]
        · rw [hp] at h hdata hlines
          obtain ⟨pre, hpre, hl, hn⟩ := ih j h
          refine ⟨r.Hits ++ pre, ?_, ?_, ?_⟩
          · rw [hav]; exact (List.prefix_append_right_inj _).mpr hpre
          · have h1 := hlines.1 j rfl
            have : dataLines (Event.scroll id cfg.timeout ::
                (ev ++ (scrollLoop lib cfg fields id rest j).1))
                = dataLines ev ++ dataLines (scrollLoop lib cfg fields id rest j).1 := by
              rw [← dataLines_append]; simp [dataLines, outputs]
            simp only [] at h1
            rw [List.flatMap_append, ← h1, ← hl]
            exact this
          · rw [hpb]
            have : scrollCalls (Event.scroll id cfg.timeout ::
                (ev ++ (scrollLoop lib cfg fields id rest j).1))
                = (id, cfg.timeout) :: scrollCalls (scrollLoop lib cfg fields id rest j).1 := by
              simp [scrollCalls, scrollCalls_append, scrollCalls_of_isData ev hdata]
            have h2 : (scrollCalls (Event.scroll id cfg.timeout ::
                (ev ++ (scrollLoop lib cfg fields id rest j).1))).length
                = (scrollCalls (scrollLoop lib cfg fields id rest j).1).length + 1 := by
              rw [this]; simp
            exact h2 ▸ Nat.succ_le_succ hn

/-- C10: when a run returns normally, the lines printed by the loop are, in order, the
lines of the records of a prefix of the sequence obtained by concatenating the pages
returned before the first empty page or `io.EOF`; and the number of scroll requests is
at most the number of those pages plus one, so nothing is requested after the first
empty page or `io.EOF`. -/
theorem ordered_prefix (lib : Lib) (cfg : Config) (be : Backend)
    (h : (main lib cfg be).exit = Exit.returned) :
    ∃ pre, pre <+: available be.scrolls ∧
      dataLines (main lib cfg be).log
        = pre.flatMap (hitLines lib cfg (Fields cfg.fieldsString)) ∧
      (scrollCalls (main lib cfg be).log).length ≤ (pagesBefore be.scrolls).length + 1 := by
  unfold main at h ⊢
  cases hq : buildQuery lib cfg with
  | none => simp [hq] at h
  | some query =>
    cases hc : checkFlags cfg (Fields cfg.fieldsString) with
    | some f => simp [hq, hc] at h
    | none =>
      cases hw : withFields cfg (Fields cfg.fieldsString) query with
      | none => simp [hq, hc, hw] at h
      | some submitted =>
      cases hs : be.scan with
      | error e => simp [hq, hc, hw, hs] at h
      | ok resp =>
        simp only [hq, hc, hw, hs, stream] at h ⊢
        obtain ⟨pre, hpre, hl, hn⟩ :=
          scrollLoop_lines lib cfg (Fields cfg.fieldsString) resp.ScrollID be.scrolls 0 h
        refine ⟨pre, hpre, ?_, ?_⟩
        · rw [← hl]
          by_cases hh : cfg.header = true <;>
            simp [dataLines, outputs, outputs_append, hh, h]
        · refine le_trans (le_of_eq ?_) hn
          by_cases hh : cfg.header = true <;>
            simp [scrollCalls, scrollCalls_append, hh, h]

/-- C10 (witness): a page of two records followed by `io.EOF`. -/
theorem ordered_prefix_witness :
    ∃ pre, pre <+: available (onePage [hitX, hitTab]).scrolls ∧
      dataLines (main sampleLib { defaults with fieldsString := "a" }
          (onePage [hitX, hitTab])).log
        = pre.flatMap (hitLines sampleLib { defaults with fieldsString := "a" }
            (Fields ({ defaults with fieldsString := "a" } : Config).fieldsString)) ∧
      (scrollCalls (main sampleLib { defaults with fieldsString := "a" }
          (onePage [hitX, hitTab])).log).length
        ≤ (pagesBefore (onePage [hitX, hitTab]).scrolls).length + 1 :=
  ordered_prefix sampleLib { defaults with fieldsString := "a" } (onePage [hitX, hitTab])
    (by decide)

/-! ## The row limit -/

theorem wrapInt_of_range (x : Int) (h0 : -2 ^ 63 ≤ x) (h1 : x < 2 ^ 63) : wrapInt x = x := by
  unfold wrapInt
  rw [Int.emod_eq_of_lt (by omega) (by omega)]
  omega

theorem processHit_step (lib : Lib) (cfg : Config) (fields : List String) (hit : Hit)
    (i : Int) (hi : i ≠ cfg.limit) :
    (∃ ev f, processHit lib cfg fields hit i = (ev, Except.error (Exit.fatal f))) ∨
    processHit lib cfg fields hit i =
      ((emitHit lib cfg fields hit).1, Except.ok (if cfg.raw then i else wrapInt (i + 1))) := by
  unfold processHit
  simp only [hi, if_false]
  rcases he : emitHit lib cfg fields hit with ⟨ev, _ | f⟩
  · right; rfl
  · left; exact ⟨ev, f, rfl⟩

theorem hitsLoop_count (lib : Lib) (cfg : Config) (fields : List String)
    (hraw : cfg.raw = false) (hL : cfg.limit < 2 ^ 63) (hits : List Hit) (i : Int)
    (hi0 : 0 ≤ i) (hiL : i ≤ cfg.limit) :
    (∀ j, (hitsLoop lib cfg fields hits i).2 = Except.ok j →
      j = i + hits.length ∧ j ≤ cfg.limit) ∧
    ((hitsLoop lib cfg fields hits i).2 = Except.error Exit.returned →
      ∃ pre, pre <+: hits ∧ i + pre.length = cfg.limit ∧
        dataLines (hitsLoop lib cfg fields hits i).1 = pre.flatMap (hitLines lib cfg fields)) := by
  induction hits generalizing i with
  | nil =>
    refine ⟨fun j h => ?_, fun h => ?_⟩
    · simp only [hitsLoop, Except.ok.injEq] at h
      subst h
      simpa using hiL
    · simp [hitsLoop] at h
  | cons hit hits ih =>
    unfold hitsLoop
    by_cases hi : i = cfg.limit
    · have hp : processHit lib cfg fields hit i = ([], Except.error Exit.returned) := by
        simp [processHit, hi]
      rw [hp]
      refine ⟨fun j h => by simp at h, fun _ => ⟨[], List.nil_prefix, ?_, ?_⟩⟩
      · simpa using hi
      · simp [dataLines, outputs]
    · rcases processHit_step lib cfg fields hit i hi with ⟨ev, f, hp⟩ | hp
      · rw [hp]
        exact ⟨fun j h => by simp at h, fun h => by simp at h⟩
      · have hlt : i < cfg.limit := lt_of_le_of_ne hiL hi
        have hw : wrapInt (i + 1) = i + 1 := wrapInt_of_range _ (by omega) (by omega)
        simp only [hraw, Bool.false_eq_true, if_false, hw] at hp
        rw [hp]
        obtain ⟨ih1, ih2⟩ := ih (i + 1) (by omega) (by omega)
        constructor
        · intro j h
          obtain ⟨h1, h2⟩ := ih1 j h
          refine ⟨?_, h2⟩
          rw [h1, List.length_cons]
          push_cast
          omega
        · intro h
          obtain ⟨pre, hpre, hn, hl⟩ := ih2 h
          refine ⟨hit :: pre, (List.prefix_cons_inj hit).mpr hpre, ?_, ?_⟩
          · rw [List.length_cons]
            push_cast
            omega
          · simp only [dataLines_append, hl, List.flatMap_cons, hitLines]

theorem scrollLoop_count (lib : Lib) (cfg : Config) (fields : List String) (id : String)
    (hraw : cfg.raw = false) (hL : cfg.limit < 2 ^ 63)
    (scrolls : List ScrollResult) (i : Int) (hi0 : 0 ≤ i) (hiL : i ≤ cfg.limit)
    (h : (scrollLoop lib cfg fields id scrolls i).2 = Exit.returned) :
    ∃ pre, pre <+: available scrolls ∧ i + pre.length ≤ cfg.limit ∧
      dataLines (scrollLoop lib cfg fields id scrolls i).1
        = pre.flatMap (hitLines lib cfg fields) := by
  induction scrolls generalizing i with
  | nil => simp [scrollLoop] at h
  | cons s rest ih =>
    cases s with
    | eof =>
      exact ⟨[], List.nil_prefix, by simpa using hiL, by simp [scrollLoop, dataLines, outputs]⟩
    | err e => simp [scrollLoop] at h
    | ok r =>
      unfold scrollLoop at h ⊢
      by_cases h0 : r.Hits.length = 0
      · simp only [h0, if_true]
        exact ⟨[], List.nil_prefix, by simpa using hiL, by simp [dataLines, outputs]⟩
      · simp only [h0, if_false] at h ⊢
        have hav : available (ScrollResult.ok r :: rest) = r.Hits ++ available rest := by
          simp [available, pagesBefore, h0]
        have hcount := hitsLoop_count lib cfg fields hraw hL r.Hits i hi0 hiL
        have hlines := hitsLoop_lines lib cfg fields r.Hits i
        rcases hp : hitsLoop lib cfg fields r.Hits i with ⟨ev, x | j⟩
        · rw [hp] at h hcount
          have hx : x = Exit.returned := h
          subst hx
          obtain ⟨pre, hpre, hn, hl⟩ := hcount.2 rfl
          refine ⟨pre, ?_, le_of_eq hn, ?_⟩
          · rw [hav]; exact hpre.trans (List.prefix_append _ _)
          · simpa [dataLines, outputs] using hl
        · rw [hp] at h hcount hlines
          obtain ⟨hj, hjL⟩ := hcount.1 j rfl
          have hj0 : 0 ≤ j := by rw [hj]; omega
          obtain ⟨pre, hpre, hn, hl⟩ := ih j hj0 hjL h
          refine ⟨r.Hits ++ pre, ?_, ?_, ?_⟩
          · rw [hav]; exact (List.prefix_append_right_inj _).mpr hpre
          · rw [List.length_append]
            push_cast
            omega
          · have h1 := hlines.1 j rfl
            have : dataLines (Event.scroll id cfg.timeout ::
                (ev ++ (scrollLoop lib cfg fields id rest j).1))
                = dataLines ev ++ dataLines (scrollLoop lib cfg fields id rest j).1 := by
              rw [← dataLines_append]; simp [dataLines, outputs]
            simp only [] at h1
            rw [List.flatMap_append, ← h1, ← hl]
            exact this

/-- In the non-raw modes, with a limit `0 ≤ L < 2^63`, a run that returns normally has
printed the lines of at most `L` records: those of a prefix, of length at most `L`, of the
records returned before the first empty page or `io.EOF`. -/
theorem nonraw_limit_bound (lib : Lib) (cfg : Config) (be : Backend)
    (hraw : cfg.raw = false) (h0 : 0 ≤ cfg.limit) (hL : cfg.limit < 2 ^ 63)
    (h : (main lib cfg be).exit = Exit.returned) :
    ∃ pre, pre <+: available be.scrolls ∧ (pre.length : Int) ≤ cfg.limit ∧
      dataLines (main lib cfg be).log
        = pre.flatMap (hitLines lib cfg (Fields cfg.fieldsString)) := by
  unfold main at h ⊢
  cases hq : buildQuery lib cfg with
  | none => simp [hq] at h
  | some query =>
    cases hc : checkFlags cfg (Fields cfg.fieldsString) with
    | some f => simp [hq, hc] at h
    | none =>
      cases hw : withFields cfg (Fields cfg.fieldsString) query with
      | none => simp [hq, hc, hw] at h
      | some submitted =>
      cases hs : be.scan with
      | error e => simp [hq, hc, hw, hs] at h
      | ok resp =>
        simp only [hq, hc, hw, hs, stream] at h ⊢
        obtain ⟨pre, hpre, hn, hl⟩ := scrollLoop_count lib cfg (Fields cfg.fieldsString)
          resp.ScrollID hraw hL be.scrolls 0 le_rfl h0 h
        refine ⟨pre, hpre, by omega, ?_⟩
        rw [← hl]
        by_cases hh : cfg.header = true <;>
          simp [dataLines, outputs, outputs_append, hh, h]

/-- An instance of `nonraw_limit_bound`: limit 1, a page of two records. -/
theorem nonraw_limit_bound_witness :
    ∃ pre, pre <+: available (onePage [hitX, hitTab]).scrolls ∧
      (pre.length : Int) ≤ ({ defaults with fieldsString := "a", limit := 1 } : Config).limit ∧
      dataLines (main sampleLib { defaults with fieldsString := "a", limit := 1 }
          (onePage [hitX, hitTab])).log
        = pre.flatMap (hitLines sampleLib { defaults with fieldsString := "a", limit := 1 }
            (Fields ({ defaults with fieldsString := "a", limit := 1 } : Config).fieldsString)) :=
  nonraw_limit_bound sampleLib { defaults with fieldsString := "a", limit := 1 }
    (onePage [hitX, hitTab]) rfl (by decide) (by decide) (by decide)

theorem hitsLoop_unlimited (lib : Lib) (cfg : Config) (fields : List String)
    (hneg : cfg.limit < 0) (hits : List Hit) (i : Int)
    (hi0 : 0 ≤ i) (hb : i + hits.length < 2 ^ 63) :
    (hitsLoop lib cfg fields hits i).2 ≠ Except.error Exit.returned ∧
    ∀ j, (hitsLoop lib cfg fields hits i).2 = Except.ok j → 0 ≤ j ∧ j ≤ i + hits.length := by
  induction hits generalizing i with
  | nil =>
    refine ⟨by simp [hitsLoop], fun j h => ?_⟩
    simp only [hitsLoop, Except.ok.injEq] at h
    subst h
    simpa using hi0
  | cons hit hits ih =>
    rw [List.length_cons] at hb
    push_cast at hb
    unfold hitsLoop
    have hi : i ≠ cfg.limit := by omega
    rcases processHit_step lib cfg fields hit i hi with ⟨ev, f, hp⟩ | hp
    · rw [hp]
      exact ⟨by simp, fun j h => by simp at h⟩
    · rw [hp]
      have hw : wrapInt (i + 1) = i + 1 := wrapInt_of_range _ (by omega) (by omega)
      have hj : 0 ≤ (if cfg.raw = true then i else wrapInt (i + 1)) ∧
          (if cfg.raw = true then i else wrapInt (i + 1)) ≤ i + 1 := by
        by_cases hr : cfg.raw = true
        · simp only [hr, if_true]; omega
        · simp only [hr, if_false, hw]; omega
      obtain ⟨ih1, ih2⟩ := ih _ hj.1 (by omega)
      refine ⟨ih1, fun j h => ?_⟩
      obtain ⟨h1, h2⟩ := ih2 j h
      rw [List.length_cons]
      push_cast
      omega

theorem scrollLoop_unlimited (lib : Lib) (cfg : Config) (fields : List String) (id : String)
    (hneg : cfg.limit < 0) (scrolls : List ScrollResult) (i : Int)
    (hi0 : 0 ≤ i) (hb : i + (available scrolls).length < 2 ^ 63)
    (h : (scrollLoop lib cfg fields id scrolls i).2 = Exit.returned) :
    dataLines (scrollLoop lib cfg fields id scrolls i).1
      = (available scrolls).flatMap (hitLines lib cfg fields) := by
  induction scrolls generalizing i with
  | nil => simp [scrollLoop] at h
  | cons s rest ih =>
    cases s with
    | eof => simp [scrollLoop, dataLines, outputs, available, pagesBefore]
    | err e => simp [scrollLoop] at h
    | ok r =>
      unfold scrollLoop at h ⊢
      by_cases h0 : r.Hits.length = 0
      · simp [h0, dataLines, outputs, available, pagesBefore]
      · simp only [h0, if_false] at h ⊢
        have hav : available (ScrollResult.ok r :: rest) = r.Hits ++ available rest := by
          simp [available, pagesBefore, h0]
        rw [hav, List.length_append] at hb
        push_cast at hb
        have hun := hitsLoop_unlimited lib cfg fields hneg r.Hits i hi0 (by omega)
        have hlines := hitsLoop_lines lib cfg fields r.Hits i
        rcases hp : hitsLoop lib cfg fields r.Hits i with ⟨ev, x | j⟩
        · rw [hp] at h hun
          have hx : x = Exit.returned := h
          subst hx
          exact absurd rfl hun.1
        · rw [hp] at h hun hlines
          obtain ⟨hj0, hj1⟩ := hun.2 j rfl
          have hrec := ih j hj0 (by omega) h
          have h1 := hlines.1 j rfl
          have : dataLines (Event.scroll id cfg.timeout ::
              (ev ++ (scrollLoop lib cfg fields id rest j).1))
              = dataLines ev ++ dataLines (scrollLoop lib cfg fields id rest j).1 := by
            rw [← dataLines_append]; simp [dataLines, outputs]
          simp only [] at h1
          rw [hav, List.flatMap_append, ← h1, ← hrec]
          exact this

/-- In every mode, with a negative limit, a run that returns normally has printed the
lines of every record returned before the first empty page or `io.EOF` (fewer than
`2^63` records, so that the 64-bit counter does not wrap around to the limit). -/
theorem negative_limit_emits_all (lib : Lib) (cfg : Config) (be : Backend)
    (hneg : cfg.limit < 0) (hb : ((available be.scrolls).length : Int) < 2 ^ 63)
    (h : (main lib cfg be).exit = Exit.returned) :
    dataLines (main lib cfg be).log
      = (available be.scrolls).flatMap (hitLines lib cfg (Fields cfg.fieldsString)) := by
  unfold main at h ⊢
  cases hq : buildQuery lib cfg with
  | none => simp [hq] at h
  | some query =>
    cases hc : checkFlags cfg (Fields cfg.fieldsString) with
    | some f => simp [hq, hc] at h
    | none =>
      cases hw : withFields cfg (Fields cfg.fieldsString) query with
      | none => simp [hq, hc, hw] at h
      | some submitted =>
      cases hs : be.scan with
      | error e => simp [hq, hc, hw, hs] at h
      | ok resp =>
        simp only [hq, hc, hw, hs, stream] at h ⊢
        rw [← scrollLoop_unlimited lib cfg (Fields cfg.fieldsString) resp.ScrollID hneg
          be.scrolls 0 le_rfl (by omega) h]
        by_cases hh : cfg.header = true <;>
          simp [dataLines, outputs, outputs_append, hh, h]

/-- An instance of `negative_limit_emits_all`: the default limit, a page of two records. -/
theorem negative_limit_emits_all_witness :
    dataLines (main sampleLib { defaults with fieldsString := "a" }
        (onePage [hitX, hitTab])).log
      = (available (onePage [hitX, hitTab]).scrolls).flatMap
          (hitLines sampleLib { defaults with fieldsString := "a" }
            (Fields ({ defaults with fieldsString := "a" } : Config).fieldsString)) :=
  negative_limit_emits_all sampleLib { defaults with fieldsString := "a" }
    (onePage [hitX, hitTab]) (by decide) (by decide) (by decide)

/-! ## The writer -/

theorem Write_total (w : Writer) (p : List UInt8) :
    (w.Write p).out ++ (w.Write p).buf = w.out ++ w.buf ++ p := by
  unfold Writer.Write
  by_cases h1 : p.length ≤ w.Available
  · simp [h1]
  · by_cases h2 : w.buf.length = 0
    · have hb : w.buf = [] := List.length_eq_zero.mp h2
      simp [h1, h2, hb]
    · by_cases h3 : (p.drop w.Available).length ≤ Writer.size
      · simp only [h1, h2, h3, if_false, if_true]
        simp [List.append_assoc]
      · simp only [h1, h2, h3, if_false]
        simp [List.append_assoc]

theorem exec_total (w : Writer) (log : List Event) :
    (log.foldl Writer.exec w).out ++ (log.foldl Writer.exec w).buf
      = w.out ++ w.buf ++ written log := by
  induction log generalizing w with
  | nil => simp [written]
  | cons e es ih =>
    rw [List.foldl_cons, ih]
    cases e with
    | println site line =>
      simp only [Writer.exec, written, Write_total]
      simp [List.append_assoc]
    | flush => simp [Writer.exec, Writer.Flush, written]
    | scan q ix t n => simp [Writer.exec, written]
    | scroll c t => simp [Writer.exec, written]

theorem written_append (a b : List Event) : written (a ++ b) = written a ++ written b := by
  induction a with
  | nil => rfl
  | cons e es ih => cases e <;> simp [written, ih]

theorem stdout_of_flush_last (log : List Event) :
    stdout { log := log ++ [Event.flush], exit := Exit.returned } = written log := by
  unfold stdout
  simp only [List.foldl_append, List.foldl_cons, List.foldl_nil, Writer.exec, Writer.Flush]
  have := exec_total ⟨[], []⟩ log
  simpa using this

/-- On the paths that return from `main` the deferred flush runs: standard output has
received every byte written, that is every printed line followed by a newline. -/
theorem returned_run_is_flushed (lib : Lib) (cfg : Config) (be : Backend)
    (h : (main lib cfg be).exit = Exit.returned) :
    stdout (main lib cfg be) = written (main lib cfg be).log := by
  unfold main at h ⊢
  cases hq : buildQuery lib cfg with
  | none => simp [hq] at h
  | some query =>
    cases hc : checkFlags cfg (Fields cfg.fieldsString) with
    | some f => simp [hq, hc] at h
    | none =>
      cases hw : withFields cfg (Fields cfg.fieldsString) query with
      | none => simp [hq, hc, hw] at h
      | some submitted =>
      cases hs : be.scan with
      | error e => simp [hq, hc, hw, hs] at h
      | ok resp =>
        simp only [hq, hc, hw, hs, stream] at h ⊢
        simp only [h, if_true]
        have := stdout_of_flush_last (Event.scan submitted
          (Fields cfg.indicesString) cfg.timeout cfg.size ::
          ((if cfg.header = true then
              [Event.println Site.header (Join (Fields cfg.fieldsString) cfg.delimiter)]
            else []) ++
            (scrollLoop lib cfg (Fields cfg.fieldsString) resp.ScrollID be.scrolls 0).1))
        simp only [List.cons_append, List.append_assoc] at this ⊢
        rw [this]
        simp [written, written_append]

/-- An instance of `returned_run_is_flushed`: a page of two records, then `io.EOF`. -/
theorem returned_run_is_flushed_witness :
    stdout (main sampleLib { defaults with fieldsString := "a" } (onePage [hitX, hitTab]))
      = written (main sampleLib { defaults with fieldsString := "a" }
          (onePage [hitX, hitTab])).log :=
  returned_run_is_flushed sampleLib { defaults with fieldsString := "a" }
    (onePage [hitX, hitTab]) (by decide)

/-! ## The three ways a run can go before the loop -/

theorem checkFlags_some (cfg : Config) (fields : List String) (f : Failure)
    (h : checkFlags cfg fields = some f) :
    f = Failure.xorRaw ∨ f = Failure.singleColumn fields.length := by
  unfold checkFlags at h
  by_cases h1 : (cfg.raw && cfg.singleValue) = true
  · rw [if_pos h1] at h
    simp only [Option.some.injEq] at h
    exact Or.inl h.symm
  · by_cases h2 : (cfg.singleValue && decide (fields.length > 1)) = true
    · rw [if_neg h1, if_pos h2] at h
      simp only [Option.some.injEq] at h
      exact Or.inr h.symm
    · rw [if_neg h1, if_neg h2] at h
      cases h

theorem main_cases (lib : Lib) (cfg : Config) (be : Backend) :
    ((main lib cfg be).log = [] ∧ reachesWriter lib cfg be = false ∧
      ∃ f, (main lib cfg be).exit = Exit.fatal f ∧
        (f = Failure.query ∨ f = Failure.xorRaw ∨
          f = Failure.singleColumn (Fields cfg.fieldsString).length ∨ f = Failure.nilMap)) ∨
    (∃ q0 q e, buildQuery lib cfg = some q0 ∧
      checkFlags cfg (Fields cfg.fieldsString) = none ∧
      withFields cfg (Fields cfg.fieldsString) q0 = some q ∧
      be.scan = Except.error e ∧ reachesWriter lib cfg be = false ∧
      (main lib cfg be).log
        = [Event.scan q (Fields cfg.indicesString) cfg.timeout cfg.size] ∧
      (main lib cfg be).exit = Exit.fatal (Failure.scan e)) ∨
    (∃ q0 q resp, buildQuery lib cfg = some q0 ∧
      checkFlags cfg (Fields cfg.fieldsString) = none ∧
      withFields cfg (Fields cfg.fieldsString) q0 = some q ∧
      be.scan = Except.ok resp ∧ reachesWriter lib cfg be = true ∧
      (main lib cfg be).log
        = Event.scan q (Fields cfg.indicesString) cfg.timeout cfg.size ::
            (stream lib cfg (Fields cfg.fieldsString) resp be.scrolls).log ∧
      (main lib cfg be).exit
        = (stream lib cfg (Fields cfg.fieldsString) resp be.scrolls).exit) := by
  unfold main reachesWriter
  cases hq : buildQuery lib cfg with
  | none => exact Or.inl ⟨rfl, by simp, _, rfl, Or.inl rfl⟩
  | some query =>
    cases hc : checkFlags cfg (Fields cfg.fieldsString) with
    | some f =>
      refine Or.inl ⟨by simp [hc], by simp [hc], f, by simp [hc], ?_⟩
      rcases checkFlags_some cfg _ f hc with h | h
      · exact Or.inr (Or.inl h)
      · exact Or.inr (Or.inr (Or.inl h))
    | none =>
      cases hw : withFields cfg (Fields cfg.fieldsString) query with
      | none =>
        exact Or.inl ⟨by simp [hc, hw], by simp [hc, hw], Failure.nilMap, by simp [hc, hw],
          Or.inr (Or.inr (Or.inr rfl))⟩
      | some submitted =>
        cases hs : be.scan with
        | error e =>
          exact Or.inr (Or.inl ⟨query, submitted, e, rfl, rfl, hw, rfl, by simp [hc, hw],
            by simp [hc, hw], by simp [hc, hw]⟩)
        | ok resp =>
          exact Or.inr (Or.inr ⟨query, submitted, resp, rfl, rfl, hw, rfl, by simp [hc, hw],
            by simp [hc, hw], by simp [hc, hw]⟩)

theorem stream_dataLines (lib : Lib) (cfg : Config) (fields : List String) (resp : Response)
    (scrolls : List ScrollResult) :
    dataLines (stream lib cfg fields resp scrolls).log
      = dataLines (scrollLoop lib cfg fields resp.ScrollID scrolls 0).1 := by
  unfold stream
  by_cases hh : cfg.header = true <;>
    by_cases hr : (scrollLoop lib cfg fields resp.ScrollID scrolls 0).2 = Exit.returned <;>
      simp [dataLines, outputs, outputs_append, hh, hr]

theorem stream_scrollCalls (lib : Lib) (cfg : Config) (fields : List String) (resp : Response)
    (scrolls : List ScrollResult) :
    scrollCalls (stream lib cfg fields resp scrolls).log
      = scrollCalls (scrollLoop lib cfg fields resp.ScrollID scrolls 0).1 := by
  unfold stream
  by_cases hh : cfg.header = true <;>
    by_cases hr : (scrollLoop lib cfg fields resp.ScrollID scrolls 0).2 = Exit.returned <;>
      simp [scrollCalls, scrollCalls_append, hh, hr]

theorem dataLines_scan_cons (q : Query) (ix : List String) (t : String) (n : Int)
    (ev : List Event) : dataLines (Event.scan q ix t n :: ev) = dataLines ev := by
  simp [dataLines, outputs]

theorem dataLines_scroll_cons (id t : String) (ev : List Event) :
    dataLines (Event.scroll id t :: ev) = dataLines ev := by
  simp [dataLines, outputs]

theorem processHit_events (lib : Lib) (cfg : Config) (fields : List String) (hit : Hit)
    (i : Int) (hi : i ≠ cfg.limit) :
    (processHit lib cfg fields hit i).1 = (emitHit lib cfg fields hit).1 := by
  unfold processHit
  simp only [hi, if_false]
  rcases emitHit lib cfg fields hit with ⟨ev, _ | f⟩ <;> rfl

/-! ## The row limit on every run -/

theorem hitsLoop_bound (lib : Lib) (cfg : Config) (fields : List String)
    (hraw : cfg.raw = false) (hL : cfg.limit < 2 ^ 63) (hits : List Hit) (i : Int)
    (hi0 : 0 ≤ i) (hiL : i ≤ cfg.limit) :
    ∃ pre, pre <+: hits ∧ i + pre.length ≤ cfg.limit ∧
      dataLines (hitsLoop lib cfg fields hits i).1 = pre.flatMap (hitLines lib cfg fields) ∧
      ∀ j, (hitsLoop lib cfg fields hits i).2 = Except.ok j →
        j = i + pre.length ∧ pre = hits := by
  induction hits generalizing i with
  | nil =>
    refine ⟨[], List.nil_prefix, by simpa using hiL, by simp [hitsLoop, dataLines, outputs],
      fun j h => ?_⟩
    simp only [hitsLoop, Except.ok.injEq] at h
    subst h
    simp
  | cons hit hits ih =>
    unfold hitsLoop
    by_cases hi : i = cfg.limit
    · have hp : processHit lib cfg fields hit i = ([], Except.error Exit.returned) := by
        simp [processHit, hi]
      rw [hp]
      exact ⟨[], List.nil_prefix, by simpa using hiL, by simp [dataLines, outputs],
        fun j h => by simp at h⟩
    · have hlt : i < cfg.limit := lt_of_le_of_ne hiL hi
      have hev := processHit_events lib cfg fields hit i hi
      rcases processHit_step lib cfg fields hit i hi with ⟨ev, f, hp⟩ | hp
      · rw [hp] at hev ⊢
        refine ⟨[hit], ?_, ?_, ?_, fun j h => by simp at h⟩
        · exact (List.prefix_cons_inj hit).mpr List.nil_prefix
        · simp only [List.length_singleton]; push_cast; omega
        · simp only [List.flatMap_cons, List.flatMap_nil, List.append_nil, hitLines]
          rw [← hev]
      · have hw : wrapInt (i + 1) = i + 1 := wrapInt_of_range _ (by omega) (by omega)
        simp only [hraw, Bool.false_eq_true, if_false, hw] at hp
        rw [hp]
        obtain ⟨pre, hpre, hn, hl, hj⟩ := ih (i + 1) (by omega) (by omega)
        refine ⟨hit :: pre, (List.prefix_cons_inj hit).mpr hpre, ?_, ?_, ?_⟩
        · rw [List.length_cons]; push_cast; omega
        · simp only [dataLines_append, hl, List.flatMap_cons, hitLines]
        · intro j h
          obtain ⟨h1, h2⟩ := hj j h
          refine ⟨?_, by rw [h2]⟩
          rw [h1, List.length_cons]; push_cast; omega

theorem scrollLoop_bound (lib : Lib) (cfg : Config) (fields : List String) (id : String)
    (hraw : cfg.raw = false) (hL : cfg.limit < 2 ^ 63)
    (scrolls : List ScrollResult) (i : Int) (hi0 : 0 ≤ i) (hiL : i ≤ cfg.limit) :
    ∃ pre, pre <+: available scrolls ∧ i + pre.length ≤ cfg.limit ∧
      dataLines (scrollLoop lib cfg fields id scrolls i).1
        = pre.flatMap (hitLines lib cfg fields) := by
  induction scrolls generalizing i with
  | nil =>
    exact ⟨[], List.nil_prefix, by simpa using hiL, by simp [scrollLoop, dataLines, outputs]⟩
  | cons s rest ih =>
    cases s with
    | eof =>
      exact ⟨[], List.nil_prefix, by simpa using hiL, by simp [scrollLoop, dataLines, outputs]⟩
    | err e =>
      exact ⟨[], List.nil_prefix, by simpa using hiL, by simp [scrollLoop, dataLines, outputs]⟩
    | ok r =>
      unfold scrollLoop
      by_cases h0 : r.Hits.length = 0
      · simp only [h0, if_true]
        exact ⟨[], List.nil_prefix, by simpa using hiL, by simp [dataLines, outputs]⟩
      · simp only [h0, if_false]
        have hav : available (ScrollResult.ok r :: rest) = r.Hits ++ available rest := by
          simp [available, pagesBefore, h0]
        obtain ⟨pre, hpre, hn, hl, hj⟩ := hitsLoop_bound lib cfg fields hraw hL r.Hits i hi0 hiL
        rcases hp : hitsLoop lib cfg fields r.Hits i with ⟨ev, x | j⟩
        · rw [hp] at hl
          refine ⟨pre, ?_, hn, ?_⟩
          · rw [hav]; exact hpre.trans (List.prefix_append _ _)
          · simpa [dataLines_scroll_cons] using hl
        · rw [hp] at hl hj
          obtain ⟨hj1, hj2⟩ := hj j rfl
          subst hj2
          obtain ⟨pre2, hpre2, hn2, hl2⟩ := ih j (by omega) (by omega)
          refine ⟨r.Hits ++ pre2, ?_, ?_, ?_⟩
          · rw [hav]; exact (List.prefix_append_right_inj _).mpr hpre2
          · rw [List.length_append]; push_cast; omega
          · show dataLines (Event.scroll id cfg.timeout ::
                (ev ++ (scrollLoop lib cfg fields id rest j).1)) = _
            rw [dataLines_scroll_cons, dataLines_append, List.flatMap_append, ← hl2]
            simp only [] at hl
            rw [hl]

theorem main_bound (lib : Lib) (cfg : Config) (be : Backend)
    (hraw : cfg.raw = false) (h0 : 0 ≤ cfg.limit) (hL : cfg.limit < 2 ^ 63) :
    ∃ pre, pre <+: available be.scrolls ∧ (pre.length : Int) ≤ cfg.limit ∧
      dataLines (main lib cfg be).log
        = pre.flatMap (hitLines lib cfg (Fields cfg.fieldsString)) := by
  rcases main_cases lib cfg be with ⟨hl, _, _⟩ | ⟨q0, q, e, _, _, _, _, _, hl, _⟩ |
      ⟨q0, q, resp, _, _, _, _, _, hl, _⟩
  · exact ⟨[], List.nil_prefix, by simpa using h0, by simp [hl, dataLines, outputs]⟩
  · exact ⟨[], List.nil_prefix, by simpa using h0, by simp [hl, dataLines, outputs]⟩
  · obtain ⟨pre, hpre, hn, hd⟩ := scrollLoop_bound lib cfg (Fields cfg.fieldsString)
      resp.ScrollID hraw hL be.scrolls 0 le_rfl h0
    refine ⟨pre, hpre, by omega, ?_⟩
    rw [hl, dataLines_scan_cons, stream_dataLines, hd]

theorem renderElems_spec (lib : Lib) (cfg : Config) (es : List JSON) :
    renderElems lib cfg es = es.filterMap (specRender lib cfg) := by
  induction es with
  | nil => rfl
  | cons e es ih =>
    cases e with
    | null => simp [renderElems, specRender, ih]
    | bool b => cases b <;> simp [renderElems, specRender, FormatBool, ih]
    | num x => simp [renderElems, specRender, ih]
    | str s => simp [renderElems, specRender, ih]
    | arr xs => simp [renderElems, specRender, ih]
    | obj kvs => simp [renderElems, specRender, ih]

/-- C11: in single-value mode with the one field `f`, for every limit, a record whose
field resolves to the values `vs` and that the loop processes (the counter `i`, a 64-bit
integer below its maximum, is not the limit) makes the loop body print exactly the values,
one line each, in order, and continue with the counter `i + 1`, whatever the number of
values; and when the limit is some `0 ≤ L < 2^63`, every run prints the lines of at most
`L` records: those of a prefix, of length at most `L`, of the records returned. -/
theorem single_value_lines (lib : Lib) (cfg : Config) (be : Backend) (f : String) (hit : Hit)
    (vs : List String) (i : Int)
    (hs : cfg.singleValue = true) (hraw : cfg.raw = false)
    (hr : resolve lib cfg hit f = some vs) (hi : i ≠ cfg.limit)
    (hi0 : -2 ^ 63 ≤ i) (hi1 : i + 1 < 2 ^ 63) :
    processHit lib cfg [f] hit i = (vs.map (Event.println Site.value), Except.ok (i + 1)) ∧
    outputs (processHit lib cfg [f] hit i).1 = vs.map (fun v => (Site.value, v)) ∧
    (outputs (processHit lib cfg [f] hit i).1).length = vs.length ∧
    (0 ≤ cfg.limit → cfg.limit < 2 ^ 63 →
      ∃ pre, pre <+: available be.scrolls ∧ (pre.length : Int) ≤ cfg.limit ∧
        dataLines (main lib cfg be).log
          = pre.flatMap (hitLines lib cfg (Fields cfg.fieldsString))) := by
  have hw : wrapInt (i + 1) = i + 1 := wrapInt_of_range _ (by omega) (by omega)
  have hp : processHit lib cfg [f] hit i
      = (vs.map (Event.println Site.value), Except.ok (i + 1)) := by
    simp [processHit, emitHit, fieldsLoop, hi, hraw, hs, hr, hw]
  have ho : ∀ l : List String, outputs (l.map (Event.println Site.value))
      = l.map (fun v => (Site.value, v)) := by
    intro l
    induction l with
    | nil => rfl
    | cons v l ih => simp [outputs, ih]
  refine ⟨hp, ?_, ?_, fun h0 hL => main_bound lib cfg be hraw h0 hL⟩
  · rw [hp]; exact ho vs
  · rw [hp]; simp [ho]

/-- C11 (witness): a record with three values at counter 0.  With the default limit -1 the
loop body prints the three values and goes on with counter 1.  With limit 1 it does the
same, and the run on a page of two such records prints the three lines of the first
record only. -/
theorem single_value_lines_witness :
    (processHit sampleLib singleUnlimited ["a"] hitThree 0
        = (["x", "y", "z"].map (Event.println Site.value), Except.ok (0 + 1)) ∧
      outputs (processHit sampleLib singleUnlimited ["a"] hitThree 0).1
        = ["x", "y", "z"].map (fun v => (Site.value, v)) ∧
      (outputs (processHit sampleLib singleUnlimited ["a"] hitThree 0).1).length
        = ["x", "y", "z"].length) ∧
    (processHit sampleLib singleConfig ["a"] hitThree 0
        = (["x", "y", "z"].map (Event.println Site.value), Except.ok (0 + 1)) ∧
      outputs (processHit sampleLib singleConfig ["a"] hitThree 0).1
        = ["x", "y", "z"].map (fun v => (Site.value, v)) ∧
      (outputs (processHit sampleLib singleConfig ["a"] hitThree 0).1).length
        = ["x", "y", "z"].length) ∧
    (∃ pre, pre <+: available (onePage [hitThree, hitThree]).scrolls ∧
      (pre.length : Int) ≤ singleConfig.limit ∧
      dataLines (main sampleLib singleConfig (onePage [hitThree, hitThree])).log
        = pre.flatMap (hitLines sampleLib singleConfig (Fields singleConfig.fieldsString))) ∧
    dataLines (main sampleLib singleConfig (onePage [hitThree, hitThree])).log
      = ["x", "y", "z"] ∧
    dataLines (main sampleLib singleUnlimited (onePage [hitThree, hitThree])).log
      = ["x", "y", "z", "x", "y", "z"] :=
  have hu := single_value_lines sampleLib singleUnlimited (onePage [hitThree, hitThree]) "a"
    hitThree ["x", "y", "z"] 0 rfl rfl rfl (by decide) (by decide) (by decide)
  have hl := single_value_lines sampleLib singleConfig (onePage [hitThree, hitThree]) "a"
    hitThree ["x", "y", "z"] 0 rfl rfl rfl (by decide) (by decide) (by decide)
  ⟨⟨hu.1, hu.2.1, hu.2.2.1⟩, ⟨hl.1, hl.2.1, hl.2.2.1⟩, hl.2.2.2 (by decide) (by decide),
    by decide, by decide⟩

/-- C12: a non-reserved field whose value is an array resolves to the rendered values of
its string, number and boolean elements, in the order of the elements, each rendered as
the spec says (`specRender`): an empty string as the null sentinel when zero-as-null is
enabled, any other string verbatim, a boolean as `true` or `false`. -/
theorem array_rendering (lib : Lib) (cfg : Config) (hit : Hit) (f : String) (es : List JSON)
    (h1 : f ≠ "_id") (h2 : f ≠ "_index") (h3 : f ≠ "_type") (h4 : f ≠ "_score")
    (h : hit.Fields.lookup f = some (JSON.arr es)) :
    resolve lib cfg hit f = some (es.filterMap (specRender lib cfg)) ∧
    column lib cfg hit f = Join (es.filterMap (specRender lib cfg)) cfg.separator := by
  have hr : resolve lib cfg hit f = some (es.filterMap (specRender lib cfg)) := by
    unfold resolve
    simp [h1, h2, h3, h4, h, renderElems_spec]
  exact ⟨hr, by simp [column, hr]⟩

/-- C12 (witness): the scenario of the spec: `tags = ["a", "", "b"]`, separator `|`,
zero-as-null enabled, null sentinel `NA`: the column, and the row printed, is `a|NA|b`. -/
theorem array_rendering_witness :
    (resolve sampleLib tagsConfig hitTags "tags"
        = some ([JSON.str "a", JSON.str "", JSON.str "b"].filterMap
            (specRender sampleLib tagsConfig)) ∧
      column sampleLib tagsConfig hitTags "tags"
        = Join ([JSON.str "a", JSON.str "", JSON.str "b"].filterMap
            (specRender sampleLib tagsConfig))
            tagsConfig.separator) ∧
    column sampleLib tagsConfig hitTags "tags" = "a|NA|b" ∧
    outputs (main sampleLib tagsConfig (onePage [hitTags])).log = [(Site.row, "a|NA|b")] :=
  ⟨array_rendering sampleLib tagsConfig hitTags "tags" _ (by decide) (by decide) (by decide)
      (by decide) rfl,
    by decide, by decide⟩

/-- C13: each of the names `_id`, `_index`, `_type` and `_score` resolves to exactly one
value: the record's identifier, its index, its type, and its score formatted with the
fixed precision 6; this is so for every field map of the record (one with an entry under
the reserved name included) and for every setting of the options. -/
theorem reserved_fields (lib : Lib) (cfg : Config) (hit : Hit) (m : JMap) :
    resolve lib cfg { hit with Fields := m } "_id" = some [hit.ID] ∧
    resolve lib cfg { hit with Fields := m } "_index" = some [hit.Index] ∧
    resolve lib cfg { hit with Fields := m } "_type" = some [hit.Typ] ∧
    resolve lib cfg { hit with Fields := m } "_score" = some [lib.FormatFloat hit.Score 6] := by
  refine ⟨?_, ?_, ?_, ?_⟩ <;> simp [resolve]

/-! ## Failures inside the loop -/

theorem fieldsLoop_fails (lib : Lib) (cfg : Config) (hit : Hit) (f : String)
    (hr : resolve lib cfg hit f = none) (fs cols : List String) (hf : f ∈ fs) :
    (fieldsLoop lib cfg hit fs cols).2 = none := by
  induction fs generalizing cols with
  | nil => simp at hf
  | cons g fs ih =>
    unfold fieldsLoop
    cases hg : resolve lib cfg hit g with
    | none => rfl
    | some c =>
      have hfs : f ∈ fs := by
        rcases List.mem_cons.mp hf with rfl | h
        · rw [hr] at hg; cases hg
        · exact h
      by_cases hs : cfg.singleValue = true
      · simp only [hs, if_true]; exact ih cols hfs
      · simp only [hs, if_false]; exact ih _ hfs

theorem fieldsLoop_multi_silent (lib : Lib) (cfg : Config) (hit : Hit)
    (hs : cfg.singleValue = false) (fs cols : List String) :
    (fieldsLoop lib cfg hit fs cols).1 = [] := by
  induction fs generalizing cols with
  | nil => rfl
  | cons g fs ih =>
    unfold fieldsLoop
    cases resolve lib cfg hit g with
    | none => rfl
    | some c => simp only [hs, Bool.false_eq_true, if_false]; exact ih _

theorem emitHit_fails (lib : Lib) (cfg : Config) (fields : List String) (hit : Hit)
    (f : String) (hraw : cfg.raw = false) (hf : f ∈ fields)
    (hr : resolve lib cfg hit f = none) :
    (emitHit lib cfg fields hit).2 = some Failure.fieldType ∧
    (checkFlags cfg fields = none → (emitHit lib cfg fields hit).1 = []) := by
  have h2 := fieldsLoop_fails lib cfg hit f hr fields [] hf
  unfold emitHit
  simp only [hraw, Bool.false_eq_true, if_false]
  rcases hfl : fieldsLoop lib cfg hit fields [] with ⟨ev, _ | columns⟩
  · refine ⟨rfl, fun hc => ?_⟩
    show ev = []
    have hev : ev = (fieldsLoop lib cfg hit fields []).1 := by rw [hfl]
    by_cases hs : cfg.singleValue = true
    · have hlen : fields.length ≤ 1 := by
        unfold checkFlags at hc
        simp only [hraw, hs, Bool.false_and, Bool.false_eq_true, if_false, Bool.true_and,
          decide_eq_true_eq] at hc
        by_contra hgt
        simp [Nat.lt_of_not_le hgt] at hc
      match fields, hf, hlen, hev with
      | [g], hf, _, hev =>
        have hg : f = g := by simpa using hf
        subst hg
        rw [hev]; simp [fieldsLoop, hr]
      | _ :: _ :: _, _, hlen, _ => simp at hlen
    · have hs' : cfg.singleValue = false := by simpa using hs
      rw [hev]; exact fieldsLoop_multi_silent lib cfg hit hs' fields []
  · rw [hfl] at h2; cases h2

theorem hitsLoop_fatal (lib : Lib) (cfg : Config) (fields : List String) (hits : List Hit)
    (i : Int) (f : Failure)
    (h : (hitsLoop lib cfg fields hits i).2 = Except.error (Exit.fatal f)) :
    ∃ hit ∈ hits, (emitHit lib cfg fields hit).2 = some f := by
  induction hits generalizing i with
  | nil => simp [hitsLoop] at h
  | cons hit hits ih =>
    unfold hitsLoop at h
    unfold processHit at h
    by_cases hi : i = cfg.limit
    · simp [hi] at h
    · simp only [hi, if_false] at h
      rcases he : emitHit lib cfg fields hit with ⟨ev, _ | g⟩
      · rw [he] at h
        obtain ⟨x, hx, hxe⟩ := ih _ h
        exact ⟨x, List.mem_cons_of_mem _ hx, hxe⟩
      · rw [he] at h
        simp only [Except.error.injEq, Exit.fatal.injEq] at h
        exact ⟨hit, List.mem_cons_self _ _, by rw [he, ← h]⟩

theorem scrollLoop_fatal (lib : Lib) (cfg : Config) (fields : List String) (id : String)
    (scrolls : List ScrollResult) (i : Int) (f : Failure)
    (h : (scrollLoop lib cfg fields id scrolls i).2 = Exit.fatal f) :
    (∃ e, f = Failure.scroll e) ∨
      ∃ hit ∈ available scrolls, (emitHit lib cfg fields hit).2 = some f := by
  induction scrolls generalizing i with
  | nil => simp [scrollLoop] at h
  | cons s rest ih =>
    cases s with
    | eof => simp [scrollLoop] at h
    | err e =>
      simp only [scrollLoop, Exit.fatal.injEq] at h
      exact Or.inl ⟨e, h.symm⟩
    | ok r =>
      unfold scrollLoop at h
      by_cases h0 : r.Hits.length = 0
      · simp [h0] at h
      · simp only [h0, if_false] at h
        have hav : available (ScrollResult.ok r :: rest) = r.Hits ++ available rest := by
          simp [available, pagesBefore, h0]
        have hfat := hitsLoop_fatal lib cfg fields r.Hits i f
        rcases hp : hitsLoop lib cfg fields r.Hits i with ⟨ev, x | j⟩
        · rw [hp] at h hfat
          have hx : x = Exit.fatal f := h
          subst hx
          obtain ⟨hit, hm, he⟩ := hfat rfl
          exact Or.inr ⟨hit, by rw [hav]; exact List.mem_append_left _ hm, he⟩
        · rw [hp] at h
          rcases ih j h with hsc | ⟨hit, hm, he⟩
          · exact Or.inl hsc
          · exact Or.inr ⟨hit, by rw [hav]; exact List.mem_append_right _ hm, he⟩

/-! ## Raw mode -/

theorem emitHit_raw_eq (lib : Lib) (cfg cfg2 : Config) (fields fields2 : List String)
    (hit : Hit) (hraw : cfg.raw = true) (hraw2 : cfg2.raw = true) :
    emitHit lib cfg2 fields2 hit = emitHit lib cfg fields hit := by
  unfold emitHit
  simp [hraw, hraw2]

theorem hitsLoop_raw_eq (lib : Lib) (cfg cfg2 : Config) (fields fields2 : List String)
    (hraw : cfg.raw = true) (hraw2 : cfg2.raw = true) (hlim : cfg2.limit = cfg.limit)
    (hits : List Hit) (i : Int) :
    hitsLoop lib cfg2 fields2 hits i = hitsLoop lib cfg fields hits i := by
  induction hits generalizing i with
  | nil => rfl
  | cons hit hits ih =>
    have hp : processHit lib cfg2 fields2 hit i = processHit lib cfg fields hit i := by
      unfold processHit
      rw [emitHit_raw_eq lib cfg cfg2 fields fields2 hit hraw hraw2, hlim, hraw, hraw2]
    unfold hitsLoop
    rw [hp]
    rcases processHit lib cfg fields hit i with ⟨ev, x | j⟩
    · rfl
    · simp only [ih j]

theorem scrollLoop_raw_eq (lib : Lib) (cfg cfg2 : Config) (fields fields2 : List String)
    (id : String) (hraw : cfg.raw = true) (hraw2 : cfg2.raw = true)
    (hlim : cfg2.limit = cfg.limit) (htime : cfg2.timeout = cfg.timeout)
    (scrolls : List ScrollResult) (i : Int) :
    scrollLoop lib cfg2 fields2 id scrolls i = scrollLoop lib cfg fields id scrolls i := by
  induction scrolls generalizing i with
  | nil => simp [scrollLoop, htime]
  | cons s rest ih =>
    cases s with
    | eof => simp [scrollLoop, htime]
    | err e => simp [scrollLoop, htime]
    | ok r =>
      unfold scrollLoop
      rw [hitsLoop_raw_eq lib cfg cfg2 fields fields2 hraw hraw2 hlim, htime]
      by_cases h0 : r.Hits.length = 0
      · simp [h0]
      · simp only [h0, if_false]
        rcases hitsLoop lib cfg fields r.Hits i with ⟨ev, x | j⟩
        · rfl
        · simp only [ih j]

theorem checkFlags_raw (cfg : Config) (fields : List String) (hraw : cfg.raw = true) :
    checkFlags cfg fields = if cfg.singleValue = true then some Failure.xorRaw else none := by
  unfold checkFlags
  by_cases hs : cfg.singleValue = true <;> simp [hraw, hs]

/-- C14: in raw mode the loop body prints, for a record that `json.Marshal` encodes as
`b`, exactly the one line `b`, with no use of the field list or of the formatting options;
the data lines of a run and the way it ends are the same whatever the field list, null
sentinel, separator, delimiter, zero-as-null and precision settings are; and no record
ends a run in raw mode with the unknown-field-type failure. -/
theorem raw_bypasses_resolver (lib : Lib) (cfg : Config) (be : Backend)
    (fields : List String) (hit : Hit) (b : String)
    (fs nv sp dl : String) (z : Bool) (p : Int)
    (hraw : cfg.raw = true) (hm : lib.Marshal hit = some b) :
    emitHit lib cfg fields hit = ([Event.println Site.raw b], none) ∧
    dataLines (main lib (cfg.withFormat fs nv sp dl z p) be).log
      = dataLines (main lib cfg be).log ∧
    (main lib (cfg.withFormat fs nv sp dl z p) be).exit = (main lib cfg be).exit ∧
    (∀ (fields2 : List String) (hit2 : Hit),
      (emitHit lib cfg fields2 hit2).2 ≠ some Failure.fieldType) ∧
    (main lib cfg be).exit ≠ Exit.fatal Failure.fieldType := by
  have hnof : ∀ (fields2 : List String) (hit2 : Hit),
      (emitHit lib cfg fields2 hit2).2 ≠ some Failure.fieldType := by
    intro fields2 hit2
    unfold emitHit
    simp only [hraw, if_true]
    cases lib.Marshal hit2 <;> simp
  have hq2 : buildQuery lib (cfg.withFormat fs nv sp dl z p) = buildQuery lib cfg := rfl
  have hc := checkFlags_raw cfg (Fields cfg.fieldsString) hraw
  have hc2 : checkFlags (cfg.withFormat fs nv sp dl z p)
      (Fields (cfg.withFormat fs nv sp dl z p).fieldsString)
      = if cfg.singleValue = true then some Failure.xorRaw else none :=
    checkFlags_raw (cfg.withFormat fs nv sp dl z p) _ hraw
  have hw : ∀ q : Query, withFields cfg (Fields cfg.fieldsString) q = some q := by
    intro q; simp [withFields, hraw]
  have hw2 : ∀ q : Query, withFields (cfg.withFormat fs nv sp dl z p)
      (Fields (cfg.withFormat fs nv sp dl z p).fieldsString) q = some q := by
    intro q; simp [withFields, Config.withFormat, hraw]
  have hloop : ∀ id scrolls i,
      scrollLoop lib (cfg.withFormat fs nv sp dl z p)
        (Fields (cfg.withFormat fs nv sp dl z p).fieldsString) id scrolls i
      = scrollLoop lib cfg (Fields cfg.fieldsString) id scrolls i :=
    fun id scrolls i => scrollLoop_raw_eq lib cfg (cfg.withFormat fs nv sp dl z p)
      (Fields cfg.fieldsString) _ id hraw hraw rfl rfl scrolls i
  have key : dataLines (main lib (cfg.withFormat fs nv sp dl z p) be).log
        = dataLines (main lib cfg be).log ∧
      (main lib (cfg.withFormat fs nv sp dl z p) be).exit = (main lib cfg be).exit := by
    unfold main
    rw [hq2]
    simp only [hc, hc2]
    cases buildQuery lib cfg with
    | none => exact ⟨rfl, rfl⟩
    | some q =>
      cases hs : cfg.singleValue with
      | true => simp
      | false =>
        simp only [Bool.false_eq_true, if_false, hw, hw2]
        cases be.scan with
        | error e => exact ⟨by simp [dataLines, outputs], rfl⟩
        | ok resp =>
          refine ⟨?_, ?_⟩
          · simp only [dataLines_scan_cons, stream_dataLines, hloop]
          · simp only [stream, hloop]
  refine ⟨by unfold emitHit; simp [hraw, hm], key.1, key.2, hnof, ?_⟩
  intro hex
  rcases main_cases lib cfg be with ⟨_, _, f, hf, hk⟩ | ⟨q0, q, e, _, _, _, _, _, _, hf⟩ |
      ⟨q0, q, resp, _, _, _, _, _, _, hf⟩
  · rw [hf] at hex
    simp only [Exit.fatal.injEq] at hex
    subst hex
    simp at hk
  · rw [hf] at hex; simp at hex
  · rw [hf] at hex
    have hex2 : (scrollLoop lib cfg (Fields cfg.fieldsString) resp.ScrollID be.scrolls 0).2
        = Exit.fatal Failure.fieldType := hex
    rcases scrollLoop_fatal lib cfg _ _ _ _ _ hex2 with ⟨e, he⟩ | ⟨hit2, _, he⟩
    · simp at he
    · exact hnof _ hit2 he

/-- C14 (witness): raw mode with the default options against `-f a -null NA`, on a page
of two records, the second with a nested object as a field value. -/
theorem raw_bypasses_resolver_witness :
    (emitHit sampleLib rawConfig ["_id", "_index"] hitNested
        = ([Event.println Site.raw "8"], none) ∧
      dataLines (main sampleLib (rawConfig.withFormat "a" "NA" "," ";" true 2)
          (onePage [hitX, hitNested])).log
        = dataLines (main sampleLib rawConfig (onePage [hitX, hitNested])).log ∧
      (main sampleLib (rawConfig.withFormat "a" "NA" "," ";" true 2)
          (onePage [hitX, hitNested])).exit
        = (main sampleLib rawConfig (onePage [hitX, hitNested])).exit ∧
      (∀ (fields2 : List String) (hit2 : Hit),
        (emitHit sampleLib rawConfig fields2 hit2).2 ≠ some Failure.fieldType) ∧
      (main sampleLib rawConfig (onePage [hitX, hitNested])).exit
        ≠ Exit.fatal Failure.fieldType) ∧
    dataLines (main sampleLib rawConfig (onePage [hitX, hitNested])).log = ["1", "8"] ∧
    (main sampleLib rawConfig (onePage [hitX, hitNested])).exit = Exit.returned :=
  ⟨raw_bypasses_resolver sampleLib rawConfig (onePage [hitX, hitNested]) ["_id", "_index"]
      hitNested "8" "a" "NA" "," ";" true 2 rfl rfl,
    by decide, by decide⟩

/-! ## The scan request -/

theorem scanQueries_append (a b : List Event) :
    scanQueries (a ++ b) = scanQueries a ++ scanQueries b := by
  induction a with
  | nil => rfl
  | cons e es ih => cases e <;> simp [scanQueries, ih]

theorem scanQueries_of_isData (ev : List Event) (h : ∀ e ∈ ev, e.isData = true) :
    scanQueries ev = [] := by
  induction ev with
  | nil => rfl
  | cons e es ih =>
    have hes : ∀ e ∈ es, e.isData = true := fun x hx => h x (List.mem_cons_of_mem _ hx)
    have he := h e (List.mem_cons_self _ _)
    cases e with
    | println site line => simpa [scanQueries] using ih hes
    | scan q ix t n => simp [Event.isData] at he
    | scroll c t => simp [Event.isData] at he
    | flush => simp [Event.isData] at he

theorem scanQueries_scrollLoop (lib : Lib) (cfg : Config) (fields : List String) (id : String)
    (scrolls : List ScrollResult) (i : Int) :
    scanQueries (scrollLoop lib cfg fields id scrolls i).1 = [] := by
  induction scrolls generalizing i with
  | nil => simp [scrollLoop, scanQueries]
  | cons s rest ih =>
    cases s with
    | eof => simp [scrollLoop, scanQueries]
    | err e => simp [scrollLoop, scanQueries]
    | ok r =>
      unfold scrollLoop
      by_cases h0 : r.Hits.length = 0
      · simp [h0, scanQueries]
      · simp only [h0, if_false]
        have hd := scanQueries_of_isData _ (hitsLoop_isData lib cfg fields r.Hits i)
        rcases hp : hitsLoop lib cfg fields r.Hits i with ⟨ev, x | j⟩
        · rw [hp] at hd; simpa [scanQueries] using hd
        · rw [hp] at hd
          show scanQueries (Event.scroll id cfg.timeout ::
            (ev ++ (scrollLoop lib cfg fields id rest j).1)) = []
          simp only [scanQueries, scanQueries_append, ih j]
          simpa using hd

theorem scanQueries_stream (lib : Lib) (cfg : Config) (fields : List String) (resp : Response)
    (scrolls : List ScrollResult) : scanQueries (stream lib cfg fields resp scrolls).log = [] := by
  unfold stream
  by_cases hh : cfg.header = true <;>
    by_cases hr : (scrollLoop lib cfg fields resp.ScrollID scrolls 0).2 = Exit.returned <;>
      simp [scanQueries, scanQueries_append, scanQueries_scrollLoop, hh, hr]

theorem lookup_filter_ne (m : JMap) (k key : String) (h : k ≠ key) :
    List.lookup k (m.filter (fun kv => kv.1 != key)) = List.lookup k m := by
  induction m with
  | nil => rfl
  | cons kv m ih =>
    obtain ⟨a, v⟩ := kv
    by_cases ha : a = key
    · subst ha
      have hka : (k == a) = false := by simpa using h
      simp [List.filter, List.lookup, hka, ih]
    · have hak : (a != key) = true := by simpa using ha
      simp only [List.filter, hak, List.lookup]
      rw [ih]

theorem mapSet_lookup (m : JMap) (key : String) (v : JSON) :
    List.lookup key (mapSet m key v) = some v ∧
    ∀ k, k ≠ key → List.lookup k (mapSet m key v) = List.lookup k m := by
  refine ⟨by simp [mapSet, List.lookup], fun k hk => ?_⟩
  have hkk : (k == key) = false := by simpa using hk
  simp only [mapSet, List.lookup, hkk]
  exact lookup_filter_ne m k key hk

/-- C16: the query of a scan request that a run submits comes from the default
match-everything query when no custom query is given, and from the parsed custom document
otherwise; in raw mode it is that query, unchanged; in the non-raw modes it is that query
with the key `fields` bound to the list of the field names, every other key being bound
as before. -/
theorem scan_query (lib : Lib) (cfg : Config) (be : Backend) (q : Query)
    (hq : q ∈ scanQueries (main lib cfg be).log) :
    scanQueries (main lib cfg be).log = [q] ∧
    ∃ q0, (cfg.queryString = "" → q0 = some matchAll) ∧
      (cfg.queryString ≠ "" → lib.Unmarshal cfg.queryString = some q0) ∧
      (cfg.raw = true → q = q0) ∧
      (cfg.raw = false → ∃ m0 m, q0 = some m0 ∧ q = some m ∧
        List.lookup "fields" m = some (JSON.arr ((Fields cfg.fieldsString).map JSON.str)) ∧
        ∀ k, k ≠ "fields" → List.lookup k m = List.lookup k m0) := by
  have hbuild : ∀ q0, buildQuery lib cfg = some q0 →
      (cfg.queryString = "" → q0 = some matchAll) ∧
      (cfg.queryString ≠ "" → lib.Unmarshal cfg.queryString = some q0) := by
    intro q0 hb
    unfold buildQuery at hb
    by_cases hs : cfg.queryString = ""
    · simp only [hs, if_true, Option.some.injEq] at hb
      exact ⟨fun _ => hb.symm, fun h => absurd hs h⟩
    · simp only [hs, if_false] at hb
      exact ⟨fun h => absurd h hs, fun _ => hb⟩
  have hcore : ∃ q0, buildQuery lib cfg = some q0 ∧
      withFields cfg (Fields cfg.fieldsString) q0 = some q ∧
      scanQueries (main lib cfg be).log = [q] := by
    rcases main_cases lib cfg be with ⟨hl, _, _⟩ | ⟨q0, q1, e, hb, _, hw, _, _, hl, _⟩ |
        ⟨q0, q1, resp, hb, _, hw, _, _, hl, _⟩
    · rw [hl] at hq; simp [scanQueries] at hq
    · rw [hl] at hq ⊢
      simp only [scanQueries, List.mem_singleton] at hq ⊢
      subst hq
      exact ⟨q0, hb, hw, rfl⟩
    · rw [hl] at hq ⊢
      simp only [scanQueries, scanQueries_stream, List.mem_singleton] at hq ⊢
      subst hq
      exact ⟨q0, hb, hw, rfl⟩
  obtain ⟨q0, hb, hw, hl⟩ := hcore
  refine ⟨hl, q0, (hbuild q0 hb).1, (hbuild q0 hb).2, ?_, ?_⟩
  · intro hraw
    simp only [withFields, hraw, Bool.not_true, Bool.false_eq_true, if_false,
      Option.some.injEq] at hw
    exact hw.symm
  · intro hraw
    unfold withFields at hw
    simp only [hraw, Bool.not_false, if_true] at hw
    cases q0 with
    | none => simp at hw
    | some m0 =>
      simp only [Option.some.injEq] at hw
      refine ⟨m0, _, rfl, hw.symm, ?_, ?_⟩
      · exact (mapSet_lookup m0 "fields" _).1
      · exact (mapSet_lookup m0 "fields" _).2

/-- C16 (witness): a custom query with the keys `size` and `fields`, run with `-f a`: the
query submitted binds `fields` to `["a"]` and `size` as before. -/
theorem scan_query_witness :
    (scanQueries (main customLib customConfig (onePage [hitX])).log
        = [some [("fields", JSON.arr [JSON.str "a"]), ("size", JSON.str "5")]] ∧
      ∃ q0, (customConfig.queryString = "" → q0 = some matchAll) ∧
        (customConfig.queryString ≠ "" →
          customLib.Unmarshal customConfig.queryString = some q0) ∧
        (customConfig.raw = true
          → some [("fields", JSON.arr [JSON.str "a"]), ("size", JSON.str "5")] = q0) ∧
        (customConfig.raw = false → ∃ m0 m, q0 = some m0 ∧
          some [("fields", JSON.arr [JSON.str "a"]), ("size", JSON.str "5")] = some m ∧
          List.lookup "fields" m
            = some (JSON.arr ((Fields customConfig.fieldsString).map JSON.str)) ∧
          ∀ k, k ≠ "fields" → List.lookup k m = List.lookup k m0)) ∧
    scanQueries (main sampleLib defaults (onePage [hitX])).log
      = [some (("fields", JSON.arr [JSON.str "_id", JSON.str "_index"]) :: matchAll)] ∧
    scanQueries (main sampleLib rawConfig (onePage [hitX])).log = [some matchAll] :=
  ⟨scan_query customLib customConfig (onePage [hitX])
      (some [("fields", JSON.arr [JSON.str "a"]), ("size", JSON.str "5")])
      (List.mem_singleton.mpr rfl),
    rfl, rfl⟩

/-- C17: in a non-raw mode, a requested non-reserved field whose value is a bare string,
number or boolean does not resolve: the loop body that processes the record ends the run
with the unknown-field-type failure, and (with flags that pass the checks) prints nothing
for the record; a non-reserved field resolves only when it is absent, null or an array. -/
theorem bare_scalar_fatal (lib : Lib) (cfg : Config) (fields : List String) (hit : Hit)
    (f : String) (i : Int) (hraw : cfg.raw = false) (hf : f ∈ fields)
    (h1 : f ≠ "_id") (h2 : f ≠ "_index") (h3 : f ≠ "_type") (h4 : f ≠ "_score")
    (h : (∃ s, hit.Fields.lookup f = some (JSON.str s)) ∨
      (∃ x, hit.Fields.lookup f = some (JSON.num x)) ∨
      (∃ b, hit.Fields.lookup f = some (JSON.bool b)))
    (hi : i ≠ cfg.limit) :
    resolve lib cfg hit f = none ∧
    (processHit lib cfg fields hit i).2 = Except.error (Exit.fatal Failure.fieldType) ∧
    (checkFlags cfg fields = none → (processHit lib cfg fields hit i).1 = []) ∧
    ∀ (g : String) (c : List String), g ≠ "_id" → g ≠ "_index" → g ≠ "_type" → g ≠ "_score" →
      resolve lib cfg hit g = some c →
      hit.Fields.lookup g = none ∨ hit.Fields.lookup g = some JSON.null ∨
        ∃ es, hit.Fields.lookup g = some (JSON.arr es) := by
  have hr : resolve lib cfg hit f = none := by
    unfold resolve
    rcases h with ⟨s, h⟩ | ⟨x, h⟩ | ⟨b, h⟩ <;> simp [h1, h2, h3, h4, h]
  obtain ⟨he2, he1⟩ := emitHit_fails lib cfg fields hit f hraw hf hr
  refine ⟨hr, ?_, ?_, ?_⟩
  · unfold processHit
    simp only [hi, if_false]
    rcases hem : emitHit lib cfg fields hit with ⟨ev, _ | g⟩
    · rw [hem] at he2; cases he2
    · rw [hem] at he2
      simp only [Option.some.injEq] at he2
      subst he2; rfl
  · intro hc
    rw [processHit_events lib cfg fields hit i hi]
    exact he1 hc
  · intro g c g1 g2 g3 g4 hg
    unfold resolve at hg
    simp only [g1, g2, g3, g4, if_false] at hg
    cases hl : hit.Fields.lookup g with
    | none => exact Or.inl rfl
    | some v =>
      cases v with
      | null => exact Or.inr (Or.inl rfl)
      | arr es => exact Or.inr (Or.inr ⟨es, rfl⟩)
      | bool b => rw [hl] at hg; cases hg
      | num x => rw [hl] at hg; cases hg
      | str s => rw [hl] at hg; cases hg
      | obj kvs => rw [hl] at hg; cases hg

/-- C17 (witness): field `a` holds the bare string `bare`; the run over a page with this
record ends with the unknown-field-type failure and prints nothing. -/
theorem bare_scalar_fatal_witness :
    (resolve sampleLib fieldConfig hitBare "a" = none ∧
      (processHit sampleLib fieldConfig ["a"] hitBare 0).2
        = Except.error (Exit.fatal Failure.fieldType) ∧
      (checkFlags fieldConfig ["a"] = none →
        (processHit sampleLib fieldConfig ["a"] hitBare 0).1 = []) ∧
      ∀ (g : String) (c : List String), g ≠ "_id" → g ≠ "_index" → g ≠ "_type" →
        g ≠ "_score" → resolve sampleLib fieldConfig hitBare g = some c →
        hitBare.Fields.lookup g = none ∨ hitBare.Fields.lookup g = some JSON.null ∨
          ∃ es, hitBare.Fields.lookup g = some (JSON.arr es)) ∧
    (main sampleLib fieldConfig (onePage [hitBare])).exit = Exit.fatal Failure.fieldType ∧
    outputs (main sampleLib fieldConfig (onePage [hitBare])).log = [] :=
  ⟨bare_scalar_fatal sampleLib fieldConfig ["a"] hitBare "a" 0 rfl (by decide) (by decide)
      (by decide) (by decide) (by decide) (Or.inl ⟨"bare", rfl⟩) (by decide),
    by decide, by decide⟩

/-- C18: a non-reserved field whose value is the empty array resolves to the empty
sequence, not to the null sentinel; its column in multi-column mode is the empty string;
in single-value mode with that one field the loop body prints no line for the record and
still continues with the counter `i + 1`. -/
theorem empty_array_not_null (lib : Lib) (cfg : Config) (hit : Hit) (f : String) (i : Int)
    (h1 : f ≠ "_id") (h2 : f ≠ "_index") (h3 : f ≠ "_type") (h4 : f ≠ "_score")
    (h : hit.Fields.lookup f = some (JSON.arr []))
    (hraw : cfg.raw = false) (hi : i ≠ cfg.limit) (hi0 : -2 ^ 63 ≤ i) (hi1 : i + 1 < 2 ^ 63) :
    resolve lib cfg hit f = some [] ∧
    column lib cfg hit f = "" ∧
    (cfg.singleValue = false →
      processHit lib cfg [f] hit i = ([Event.println Site.row ""], Except.ok (i + 1))) ∧
    (cfg.singleValue = true → processHit lib cfg [f] hit i = ([], Except.ok (i + 1))) := by
  have hw : wrapInt (i + 1) = i + 1 := wrapInt_of_range _ (by omega) (by omega)
  have hr : resolve lib cfg hit f = some [] := by
    unfold resolve
    simp [h1, h2, h3, h4, h, renderElems]
  refine ⟨hr, by simp [column, hr, Join], ?_, ?_⟩
  · intro hs
    simp [processHit, emitHit, fieldsLoop, hi, hraw, hs, hr, hw, Join]
  · intro hs
    simp [processHit, emitHit, fieldsLoop, hi, hraw, hs, hr, hw]

/-- C18 (witness): field `a` is `[]`; in single-value mode with limit 1 the run over a
page with this record and a second one prints nothing: the first record used up the
limit. -/
theorem empty_array_not_null_witness :
    (resolve sampleLib singleConfig hitEmpty "a" = some [] ∧
      column sampleLib singleConfig hitEmpty "a" = "" ∧
      (singleConfig.singleValue = false →
        processHit sampleLib singleConfig ["a"] hitEmpty 0
          = ([Event.println Site.row ""], Except.ok (0 + 1))) ∧
      (singleConfig.singleValue = true →
        processHit sampleLib singleConfig ["a"] hitEmpty 0 = ([], Except.ok (0 + 1)))) ∧
    outputs (main sampleLib singleConfig (onePage [hitEmpty, hitThree])).log = [] ∧
    (main sampleLib singleConfig (onePage [hitEmpty, hitThree])).exit = Exit.returned ∧
    outputs (main sampleLib fieldConfig (onePage [hitEmpty])).log = [(Site.row, "")] :=
  ⟨empty_array_not_null sampleLib singleConfig hitEmpty "a" 0 (by decide) (by decide)
      (by decide) (by decide) rfl rfl (by decide) (by decide) (by decide),
    by decide, by decide, by decide⟩

/-! ## The cursor -/

theorem scrollLoop_calls (lib : Lib) (cfg : Config) (fields : List String) (id : String)
    (scrolls : List ScrollResult) (i : Int) :
    ∀ c ∈ scrollCalls (scrollLoop lib cfg fields id scrolls i).1, c = (id, cfg.timeout) := by
  induction scrolls generalizing i with
  | nil => simp [scrollLoop, scrollCalls]
  | cons s rest ih =>
    cases s with
    | eof => simp [scrollLoop, scrollCalls]
    | err e => simp [scrollLoop, scrollCalls]
    | ok r =>
      unfold scrollLoop
      by_cases h0 : r.Hits.length = 0
      · simp [h0, scrollCalls]
      · simp only [h0, if_false]
        have hd := scrollCalls_of_isData _ (hitsLoop_isData lib cfg fields r.Hits i)
        rcases hp : hitsLoop lib cfg fields r.Hits i with ⟨ev, x | j⟩
        · rw [hp] at hd
          intro c hc
          replace hc : c ∈ scrollCalls (Event.scroll id cfg.timeout :: ev) := hc
          simp only [scrollCalls, List.mem_cons] at hc
          have hd2 : scrollCalls ev = [] := hd
          rw [hd2] at hc
          simpa using hc
        · rw [hp] at hd
          intro c hc
          replace hc : c ∈ scrollCalls (Event.scroll id cfg.timeout ::
            (ev ++ (scrollLoop lib cfg fields id rest j).1)) := hc
          have hd2 : scrollCalls ev = [] := hd
          simp only [scrollCalls, scrollCalls_append, hd2, List.nil_append,
            List.mem_cons] at hc
          rcases hc with hc | hc
          · exact hc
          · exact ih j c hc

theorem scrollLoop_mapCursor (lib : Lib) (cfg : Config) (fields : List String) (id : String)
    (g : String → String) (scrolls : List ScrollResult) (i : Int) :
    scrollLoop lib cfg fields id (scrolls.map (mapCursor g)) i
      = scrollLoop lib cfg fields id scrolls i := by
  induction scrolls generalizing i with
  | nil => rfl
  | cons s rest ih =>
    cases s with
    | eof => rfl
    | err e => rfl
    | ok r =>
      simp only [List.map_cons, mapCursor]
      unfold scrollLoop
      by_cases h0 : r.Hits.length = 0
      · simp [h0]
      · simp only [h0, if_false]
        rcases hitsLoop lib cfg fields r.Hits i with ⟨ev, x | j⟩
        · rfl
        · simp only [ih j]

/-- C20: every scroll request of a run carries the cursor token of the scan response and
the configured timeout; the run is the same whatever cursor tokens the scroll responses
carry, and the same whatever records the scan response carries (they are never read, so
never printed). -/
theorem cursor_constant (lib : Lib) (cfg : Config) (be : Backend) :
    (∀ c ∈ scrollCalls (main lib cfg be).log,
      ∃ resp, be.scan = Except.ok resp ∧ c = (resp.ScrollID, cfg.timeout)) ∧
    (∀ g : String → String,
      (main lib cfg ⟨be.scan, be.scrolls.map (mapCursor g)⟩).log = (main lib cfg be).log ∧
      (main lib cfg ⟨be.scan, be.scrolls.map (mapCursor g)⟩).exit = (main lib cfg be).exit) ∧
    (∀ (id : String) (hits hits2 : List Hit),
      (main lib cfg ⟨Except.ok ⟨id, hits⟩, be.scrolls⟩).log
        = (main lib cfg ⟨Except.ok ⟨id, hits2⟩, be.scrolls⟩).log ∧
      (main lib cfg ⟨Except.ok ⟨id, hits⟩, be.scrolls⟩).exit
        = (main lib cfg ⟨Except.ok ⟨id, hits2⟩, be.scrolls⟩).exit) := by
  refine ⟨?_, ?_, ?_⟩
  · intro c hc
    rcases main_cases lib cfg be with ⟨hl, _, _⟩ | ⟨q0, q, e, _, _, _, _, _, hl, _⟩ |
        ⟨q0, q, resp, _, _, _, hs, _, hl, _⟩
    · rw [hl] at hc; simp [scrollCalls] at hc
    · rw [hl] at hc; simp [scrollCalls] at hc
    · rw [hl] at hc
      simp only [scrollCalls, stream_scrollCalls] at hc
      exact ⟨resp, hs, scrollLoop_calls lib cfg _ _ _ _ c hc⟩
  · intro g
    constructor <;> simp only [main, stream, scrollLoop_mapCursor]
  · intro id hits hits2
    exact ⟨rfl, rfl⟩

/-! ## Runs over pages whose records are all processed -/

theorem dataLines_hitEvents (lib : Lib) (cfg : Config) (fields : List String)
    (hits : List Hit) :
    dataLines (hitEvents lib cfg fields hits) = hits.flatMap (hitLines lib cfg fields) := by
  induction hits with
  | nil => rfl
  | cons hit hits ih =>
    have : hitEvents lib cfg fields (hit :: hits)
        = (emitHit lib cfg fields hit).1 ++ hitEvents lib cfg fields hits := by
      simp [hitEvents]
    rw [this, dataLines_append, ih]
    simp [hitLines]

theorem scrollCalls_hitEvents (lib : Lib) (cfg : Config) (fields : List String)
    (hits : List Hit) : scrollCalls (hitEvents lib cfg fields hits) = [] := by
  apply scrollCalls_of_isData
  intro e he
  simp only [hitEvents, List.mem_flatMap] at he
  obtain ⟨hit, _, hm⟩ := he
  exact emitHit_isData lib cfg fields hit e hm

theorem dataLines_pageEvents (lib : Lib) (cfg : Config) (fields : List String) (id : String)
    (pages : List Response) :
    dataLines (pageEvents lib cfg fields id pages)
      = (recordsOf pages).flatMap (hitLines lib cfg fields) := by
  induction pages with
  | nil => rfl
  | cons r pages ih =>
    have : pageEvents lib cfg fields id (r :: pages)
        = Event.scroll id cfg.timeout :: (hitEvents lib cfg fields r.Hits ++
            pageEvents lib cfg fields id pages) := by
      simp [pageEvents]
    rw [this, dataLines_scroll_cons, dataLines_append, ih, dataLines_hitEvents]
    simp [recordsOf]

theorem scrollCalls_pageEvents (lib : Lib) (cfg : Config) (fields : List String) (id : String)
    (pages : List Response) :
    (scrollCalls (pageEvents lib cfg fields id pages)).length = pages.length := by
  induction pages with
  | nil => rfl
  | cons r pages ih =>
    have : pageEvents lib cfg fields id (r :: pages)
        = Event.scroll id cfg.timeout :: (hitEvents lib cfg fields r.Hits ++
            pageEvents lib cfg fields id pages) := by
      simp [pageEvents]
    rw [this]
    simp [scrollCalls, scrollCalls_append, scrollCalls_hitEvents, ih]

theorem hitsLoop_good (lib : Lib) (cfg : Config) (fields : List String)
    (hraw : cfg.raw = false) (hits : List Hit) (i : Int)
    (hgood : ∀ hit ∈ hits, (emitHit lib cfg fields hit).2 = none)
    (hi0 : 0 ≤ i) (hb : i + hits.length < 2 ^ 63)
    (hlim : cfg.limit < 0 ∨ i + hits.length ≤ cfg.limit) :
    hitsLoop lib cfg fields hits i
      = (hitEvents lib cfg fields hits, Except.ok (i + hits.length)) := by
  induction hits generalizing i with
  | nil => simp [hitsLoop, hitEvents]
  | cons hit hits ih =>
    rw [List.length_cons] at hb hlim
    push_cast at hb hlim
    have hi : i ≠ cfg.limit := by omega
    have hw : wrapInt (i + 1) = i + 1 := wrapInt_of_range _ (by omega) (by omega)
    have hg := hgood hit (List.mem_cons_self _ _)
    have hp : processHit lib cfg fields hit i
        = ((emitHit lib cfg fields hit).1, Except.ok (i + 1)) := by
      unfold processHit
      simp only [hi, if_false]
      rcases he : emitHit lib cfg fields hit with ⟨ev, _ | g⟩
      · simp [hraw, hw]
      · rw [he] at hg; cases hg
    unfold hitsLoop
    rw [hp]
    simp only []
    rw [ih (i + 1) (fun x hx => hgood x (List.mem_cons_of_mem _ hx)) (by omega) (by omega)
      (by omega)]
    simp only [hitEvents, List.flatMap_cons, List.length_cons]
    push_cast
    rw [show i + 1 + (hits.length : Int) = i + (↑hits.length + 1) by ring]

theorem hitsLoop_cons (lib : Lib) (cfg : Config) (fields : List String) (hit : Hit)
    (hits : List Hit) (i : Int) :
    hitsLoop lib cfg fields (hit :: hits) i
      = match processHit lib cfg fields hit i with
        | (ev, Except.error x) => (ev, Except.error x)
        | (ev, Except.ok j) =>
          (ev ++ (hitsLoop lib cfg fields hits j).1, (hitsLoop lib cfg fields hits j).2) := by
  rw [hitsLoop]

theorem scrollLoop_page (lib : Lib) (cfg : Config) (fields : List String) (id : String)
    (r : Response) (rest : List ScrollResult) (i : Int) (h0 : r.Hits ≠ []) :
    scrollLoop lib cfg fields id (ScrollResult.ok r :: rest) i
      = match hitsLoop lib cfg fields r.Hits i with
        | (ev, Except.error x) => (Event.scroll id cfg.timeout :: ev, x)
        | (ev, Except.ok j) =>
          (Event.scroll id cfg.timeout :: ev ++ (scrollLoop lib cfg fields id rest j).1,
            (scrollLoop lib cfg fields id rest j).2) := by
  have h : ¬ r.Hits.length = 0 := fun h => h0 (List.length_eq_zero.mp h)
  rw [scrollLoop]
  simp only [h, if_false]

theorem hitsLoop_append (lib : Lib) (cfg : Config) (fields : List String)
    (a b : List Hit) (i j : Int) (ev : List Event)
    (h : hitsLoop lib cfg fields a i = (ev, Except.ok j)) :
    hitsLoop lib cfg fields (a ++ b) i
      = (ev ++ (hitsLoop lib cfg fields b j).1, (hitsLoop lib cfg fields b j).2) := by
  induction a generalizing i ev with
  | nil =>
    simp only [hitsLoop, Prod.mk.injEq, Except.ok.injEq] at h
    obtain ⟨h1, h2⟩ := h
    subst h1; subst h2
    simp
  | cons hit a ih =>
    simp only [List.cons_append]
    rw [hitsLoop_cons] at h ⊢
    rcases hp : processHit lib cfg fields hit i with ⟨ev1, x | k⟩
    · rw [hp] at h; simp at h
    · rw [hp] at h
      simp only [Prod.mk.injEq] at h
      obtain ⟨h1, h2⟩ := h
      have hrec : hitsLoop lib cfg fields a k = ((hitsLoop lib cfg fields a k).1, Except.ok j) := by
        rw [← h2]
      simp only []
      rw [ih k _ hrec, ← h1]
      simp [List.append_assoc]

theorem scrollLoop_pages (lib : Lib) (cfg : Config) (fields : List String) (id : String)
    (hraw : cfg.raw = false) (pages : List Response) (tail : List ScrollResult) (i : Int)
    (hne : ∀ r ∈ pages, r.Hits ≠ [])
    (hgood : ∀ hit ∈ recordsOf pages, (emitHit lib cfg fields hit).2 = none)
    (hi0 : 0 ≤ i) (hb : i + (recordsOf pages).length < 2 ^ 63)
    (hlim : cfg.limit < 0 ∨ i + (recordsOf pages).length ≤ cfg.limit) :
    scrollLoop lib cfg fields id (pages.map ScrollResult.ok ++ tail) i
      = (pageEvents lib cfg fields id pages ++
          (scrollLoop lib cfg fields id tail (i + (recordsOf pages).length)).1,
        (scrollLoop lib cfg fields id tail (i + (recordsOf pages).length)).2) := by
  induction pages generalizing i with
  | nil => simp [pageEvents, recordsOf]
  | cons r pages ih =>
    have hrec : recordsOf (r :: pages) = r.Hits ++ recordsOf pages := by simp [recordsOf]
    rw [hrec, List.length_append] at hb hlim
    push_cast at hb hlim
    have h0 : ¬ r.Hits.length = 0 := by
      intro h
      exact hne r (List.mem_cons_self _ _) (List.length_eq_zero.mp h)
    have hpage := hitsLoop_good lib cfg fields hraw r.Hits i
      (fun x hx => hgood x (by rw [hrec]; exact List.mem_append_left _ hx)) hi0 (by omega)
      (by omega)
    have hih := ih (i + r.Hits.length) (fun x hx => hne x (List.mem_cons_of_mem _ hx))
      (fun x hx => hgood x (by rw [hrec]; exact List.mem_append_right _ hx))
      (by omega) (by omega) (by omega)
    simp only [List.map_cons, List.cons_append]
    rw [scrollLoop_page lib cfg fields id r _ i (hne r (List.mem_cons_self _ _)), hpage]
    simp only []
    rw [hih, hrec, List.length_append]
    push_cast
    rw [show i + ((r.Hits.length : Int) + (recordsOf pages).length)
        = i + r.Hits.length + (recordsOf pages).length by ring]
    simp [pageEvents, List.append_assoc]

theorem scrollLoop_at_limit (lib : Lib) (cfg : Config) (fields : List String) (id : String)
    (rest : List ScrollResult) :
    scrollLoop lib cfg fields id rest cfg.limit
      = ([Event.scroll id cfg.timeout], afterLimit rest) := by
  cases rest with
  | nil => rfl
  | cons s rest =>
    cases s with
    | eof => rfl
    | err e => rfl
    | ok r =>
      unfold scrollLoop
      by_cases h0 : r.Hits.length = 0
      · simp [h0, afterLimit]
      · simp only [h0, if_false]
        cases hh : r.Hits with
        | nil => simp [hh] at h0
        | cons hit hits => simp [hitsLoop, processHit, afterLimit]

theorem scrollLoop_into_page (lib : Lib) (cfg : Config) (fields : List String) (id id2 : String)
    (hraw : cfg.raw = false) (pages : List Response) (pre rem : List Hit)
    (rest : List ScrollResult) (ev : List Event) (x : Exit)
    (hne : ∀ r ∈ pages, r.Hits ≠ []) (hrem : rem ≠ [])
    (hgood : ∀ hit ∈ recordsOf pages ++ pre, (emitHit lib cfg fields hit).2 = none)
    (hb : ((recordsOf pages ++ pre).length : Int) < 2 ^ 63)
    (hlim : cfg.limit < 0 ∨ ((recordsOf pages ++ pre).length : Int) ≤ cfg.limit)
    (hx : hitsLoop lib cfg fields rem ((recordsOf pages ++ pre).length : Int)
      = (ev, Except.error x)) :
    scrollLoop lib cfg fields id
        (pages.map ScrollResult.ok ++ ScrollResult.ok ⟨id2, pre ++ rem⟩ :: rest) 0
      = (pageEvents lib cfg fields id pages ++
          Event.scroll id cfg.timeout :: (hitEvents lib cfg fields pre ++ ev), x) := by
  rw [List.length_append] at hb hlim hx
  push_cast at hb hlim hx
  have hpages := scrollLoop_pages lib cfg fields id hraw pages
    (ScrollResult.ok ⟨id2, pre ++ rem⟩ :: rest) 0 hne
    (fun h hh => hgood h (List.mem_append_left _ hh)) le_rfl (by omega) (by omega)
  have hpre := hitsLoop_good lib cfg fields hraw pre (0 + ((recordsOf pages).length : Int))
    (fun h hh => hgood h (List.mem_append_right _ hh)) (by omega) (by omega) (by omega)
  have hne2 : (⟨id2, pre ++ rem⟩ : Response).Hits ≠ [] := by
    intro h
    have h2 : pre ++ rem = [] := h
    exact hrem (List.append_eq_nil.mp h2).2
  have happ := hitsLoop_append lib cfg fields pre rem _ _ _ hpre
  rw [show (0 : Int) + (recordsOf pages).length + pre.length
      = (recordsOf pages).length + pre.length by ring, hx] at happ
  rw [hpages, scrollLoop_page lib cfg fields id _ rest _ hne2]
  have happ2 : hitsLoop lib cfg fields (⟨id2, pre ++ rem⟩ : Response).Hits
      (0 + ((recordsOf pages).length : Int))
      = (hitEvents lib cfg fields pre ++ ev, Except.error x) := happ
  rw [happ2]

theorem reaches_cases (lib : Lib) (cfg : Config) (be : Backend)
    (h : reachesWriter lib cfg be = true) :
    ∃ q resp, checkFlags cfg (Fields cfg.fieldsString) = none ∧
      (main lib cfg be).log
        = Event.scan q (Fields cfg.indicesString) cfg.timeout cfg.size ::
            (stream lib cfg (Fields cfg.fieldsString) resp be.scrolls).log ∧
      (main lib cfg be).exit
        = (scrollLoop lib cfg (Fields cfg.fieldsString) resp.ScrollID be.scrolls 0).2 := by
  rcases main_cases lib cfg be with ⟨_, hr, _⟩ | ⟨q0, q, e, _, _, _, _, hr, _, _⟩ |
      ⟨q0, q, resp, _, hc, _, _, _, hl, hx⟩
  · rw [h] at hr; cases hr
  · rw [h] at hr; cases hr
  · exact ⟨q, resp, hc, hl, hx⟩

/-- C15: in a non-raw mode, let a record `bad` hold a nested object as the value of a
requested non-reserved field, let the pages before its page and the records before it in
its page all be processed without failure, and let the limit not be reached before it.
Then the run ends with the unknown-field-type failure; the lines printed are exactly the
lines of the records before `bad` (none for `bad`, none for a later record); and the
scroll request that fetched the page of `bad` is the last one. -/
theorem nested_object_stops (lib : Lib) (cfg : Config) (be : Backend)
    (pages : List Response) (id : String) (pre post : List Hit) (bad : Hit)
    (rest : List ScrollResult) (f : String) (kvs : List (String × JSON))
    (hraw : cfg.raw = false) (hreach : reachesWriter lib cfg be = true)
    (hf : f ∈ Fields cfg.fieldsString)
    (h1 : f ≠ "_id") (h2 : f ≠ "_index") (h3 : f ≠ "_type") (h4 : f ≠ "_score")
    (hbad : bad.Fields.lookup f = some (JSON.obj kvs))
    (hne : ∀ r ∈ pages, r.Hits ≠ [])
    (hgood : ∀ hit ∈ recordsOf pages ++ pre,
      (emitHit lib cfg (Fields cfg.fieldsString) hit).2 = none)
    (hb : ((recordsOf pages ++ pre).length : Int) < 2 ^ 63)
    (hlim : cfg.limit < 0 ∨ ((recordsOf pages ++ pre).length : Int) < cfg.limit)
    (hs : be.scrolls
      = pages.map ScrollResult.ok ++ ScrollResult.ok ⟨id, pre ++ bad :: post⟩ :: rest) :
    (main lib cfg be).exit = Exit.fatal Failure.fieldType ∧
    dataLines (main lib cfg be).log
      = (recordsOf pages ++ pre).flatMap (hitLines lib cfg (Fields cfg.fieldsString)) ∧
    hitLines lib cfg (Fields cfg.fieldsString) bad = [] ∧
    (scrollCalls (main lib cfg be).log).length = pages.length + 1 := by
  obtain ⟨q, resp, hc, hl, hx⟩ := reaches_cases lib cfg be hreach
  have hr : resolve lib cfg bad f = none := by
    unfold resolve
    simp [h1, h2, h3, h4, hbad]
  obtain ⟨he2, he1⟩ := emitHit_fails lib cfg (Fields cfg.fieldsString) bad f hraw hf hr
  have hi : ((recordsOf pages ++ pre).length : Int) ≠ cfg.limit := by omega
  have hbadloop : hitsLoop lib cfg (Fields cfg.fieldsString) (bad :: post)
      ((recordsOf pages ++ pre).length : Int)
      = ([], Except.error (Exit.fatal Failure.fieldType)) := by
    rw [hitsLoop_cons]
    have hp : processHit lib cfg (Fields cfg.fieldsString) bad
        ((recordsOf pages ++ pre).length : Int)
        = ([], Except.error (Exit.fatal Failure.fieldType)) := by
      have hev := he1 hc
      unfold processHit
      simp only [hi, if_false]
      rcases hem : emitHit lib cfg (Fields cfg.fieldsString) bad with ⟨ev, _ | g⟩
      · rw [hem] at he2; cases he2
      · rw [hem] at he2 hev
        simp only [Option.some.injEq] at he2
        simp only [] at hev
        subst he2; subst hev; rfl
    rw [hp]
  have hloop := scrollLoop_into_page lib cfg (Fields cfg.fieldsString) resp.ScrollID id hraw
    pages pre (bad :: post) rest [] _ hne (by simp) hgood hb (by omega) hbadloop
  rw [← hs] at hloop
  refine ⟨by rw [hx, hloop], ?_, ?_, ?_⟩
  · rw [hl, dataLines_scan_cons, stream_dataLines, hloop]
    simp only [List.append_nil, dataLines_append, dataLines_scroll_cons, dataLines_pageEvents,
      dataLines_hitEvents, List.flatMap_append]
  · simp [hitLines, he1 hc, dataLines, outputs]
  · rw [hl]
    simp only [scrollCalls, stream_scrollCalls, hloop, scrollCalls_append, List.append_nil,
      scrollCalls_hitEvents, List.length_append, scrollCalls_pageEvents, List.length_cons,
      List.length_nil]

/-- C15 (witness): a first page with one record, then a page with a good record, the
record with the nested object and one more record, then a further page. -/
theorem nested_object_stops_witness :
    (main sampleLib fieldConfig nestedBackend).exit = Exit.fatal Failure.fieldType ∧
    dataLines (main sampleLib fieldConfig nestedBackend).log
      = (recordsOf [⟨"c1", [hitX]⟩] ++ [hitTab]).flatMap (hitLines sampleLib fieldConfig
          (Fields fieldConfig.fieldsString)) ∧
    hitLines sampleLib fieldConfig (Fields fieldConfig.fieldsString) hitNested = [] ∧
    (scrollCalls (main sampleLib fieldConfig nestedBackend).log).length
      = [(⟨"c1", [hitX]⟩ : Response)].length + 1 :=
  nested_object_stops sampleLib fieldConfig nestedBackend
    [⟨"c1", [hitX]⟩] "c2" [hitTab] [hitThree] hitNested [ScrollResult.ok ⟨"c3", [hitX]⟩] "a"
    [("k", JSON.str "v")]
    rfl (by decide) (by decide) (by decide) (by decide) (by decide) (by decide) rfl
    (by simp) (by decide) (by decide) (by decide) rfl

/-- C19: in a non-raw mode, for a run that gets to the loop: (1) if the pages returned
first hold exactly `L` records in all (the `L`-th record is the last of its page), all
processed without failure, the loop issues one more scroll request than there are such
pages, and the run ends as the outcome of that extra request decides: normally for a
page, empty or not, and for `io.EOF`, fatally for any other error, although the lines of
all `L` records are printed; (2) if the `L`-th record is followed by another record in
its page, the run returns when it comes to that record, and the request that fetched the
page is the last scroll request. -/
theorem limit_checked_before_record (lib : Lib) (cfg : Config) (be : Backend)
    (hraw : cfg.raw = false) (hreach : reachesWriter lib cfg be = true)
    (hL : cfg.limit < 2 ^ 63) :
    (∀ (pages : List Response) (rest : List ScrollResult),
      (∀ r ∈ pages, r.Hits ≠ []) →
      (∀ hit ∈ recordsOf pages, (emitHit lib cfg (Fields cfg.fieldsString) hit).2 = none) →
      ((recordsOf pages).length : Int) = cfg.limit →
      be.scrolls = pages.map ScrollResult.ok ++ rest →
      (scrollCalls (main lib cfg be).log).length = pages.length + 1 ∧
      dataLines (main lib cfg be).log
        = (recordsOf pages).flatMap (hitLines lib cfg (Fields cfg.fieldsString)) ∧
      (main lib cfg be).exit = afterLimit rest) ∧
    (∀ (pages : List Response) (id : String) (pre post : List Hit) (hit : Hit)
        (rest : List ScrollResult),
      (∀ r ∈ pages, r.Hits ≠ []) →
      (∀ h ∈ recordsOf pages ++ pre,
        (emitHit lib cfg (Fields cfg.fieldsString) h).2 = none) →
      ((recordsOf pages ++ pre).length : Int) = cfg.limit →
      be.scrolls
        = pages.map ScrollResult.ok ++ ScrollResult.ok ⟨id, pre ++ hit :: post⟩ :: rest →
      (scrollCalls (main lib cfg be).log).length = pages.length + 1 ∧
      dataLines (main lib cfg be).log
        = (recordsOf pages ++ pre).flatMap (hitLines lib cfg (Fields cfg.fieldsString)) ∧
      (main lib cfg be).exit = Exit.returned) := by
  obtain ⟨q, resp, hc, hl, hx⟩ := reaches_cases lib cfg be hreach
  constructor
  · intro pages rest hne hgood hcount hs
    have hloop := scrollLoop_pages lib cfg (Fields cfg.fieldsString) resp.ScrollID hraw pages
      rest 0 hne hgood le_rfl (by omega) (by omega)
    rw [show (0 : Int) + (recordsOf pages).length = cfg.limit by omega,
      scrollLoop_at_limit, ← hs] at hloop
    refine ⟨?_, ?_, by rw [hx, hloop]⟩
    · rw [hl]
      simp only [scrollCalls, stream_scrollCalls, hloop, scrollCalls_append,
        List.length_append, scrollCalls_pageEvents, List.length_cons, List.length_nil]
    · rw [hl, dataLines_scan_cons, stream_dataLines, hloop]
      simp only [dataLines_append, dataLines_pageEvents]
      simp [dataLines, outputs]
  · intro pages id pre post hit rest hne hgood hcount hs
    have hstop : hitsLoop lib cfg (Fields cfg.fieldsString) (hit :: post)
        ((recordsOf pages ++ pre).length : Int) = ([], Except.error Exit.returned) := by
      rw [hitsLoop_cons]
      have hp : processHit lib cfg (Fields cfg.fieldsString) hit
          ((recordsOf pages ++ pre).length : Int) = ([], Except.error Exit.returned) := by
        unfold processHit
        rw [if_pos hcount]
      rw [hp]
    have hloop := scrollLoop_into_page lib cfg (Fields cfg.fieldsString) resp.ScrollID id hraw
      pages pre (hit :: post) rest [] _ hne (by simp) hgood (by omega) (by omega) hstop
    rw [← hs] at hloop
    refine ⟨?_, ?_, by rw [hx, hloop]⟩
    · rw [hl]
      simp only [scrollCalls, stream_scrollCalls, hloop, scrollCalls_append, List.append_nil,
        scrollCalls_hitEvents, List.length_append, scrollCalls_pageEvents, List.length_cons,
        List.length_nil]
    · rw [hl, dataLines_scan_cons, stream_dataLines, hloop]
      simp only [List.append_nil, dataLines_append, dataLines_scroll_cons,
        dataLines_pageEvents, dataLines_hitEvents, List.flatMap_append]

/-- C19 (witness): limit 1.  A page of one record followed by a failing scroll request:
two scroll requests, the row is printed, the run ends fatally.  A page of two records:
one scroll request, the first row is printed, the run returns. -/
theorem limit_checked_before_record_witness :
    ((scrollCalls (main sampleLib limitOneConfig errorAfterPage).log).length
        = [(⟨"c1", [hitX]⟩ : Response)].length + 1 ∧
      dataLines (main sampleLib limitOneConfig errorAfterPage).log
        = (recordsOf [⟨"c1", [hitX]⟩]).flatMap
            (hitLines sampleLib limitOneConfig (Fields limitOneConfig.fieldsString)) ∧
      (main sampleLib limitOneConfig errorAfterPage).exit
        = afterLimit [ScrollResult.err "timeout"]) ∧
    ((scrollCalls (main sampleLib limitOneConfig (onePage [hitX, hitTab])).log).length
        = ([] : List Response).length + 1 ∧
      dataLines (main sampleLib limitOneConfig (onePage [hitX, hitTab])).log
        = (recordsOf [] ++ [hitX]).flatMap
            (hitLines sampleLib limitOneConfig (Fields limitOneConfig.fieldsString)) ∧
      (main sampleLib limitOneConfig (onePage [hitX, hitTab])).exit = Exit.returned) ∧
    scrollCalls (main sampleLib limitOneConfig errorAfterPage).log
      = [("c0", "10m"), ("c0", "10m")] ∧
    dataLines (main sampleLib limitOneConfig errorAfterPage).log = ["x"] ∧
    (main sampleLib limitOneConfig errorAfterPage).exit
      = Exit.fatal (Failure.scroll "timeout") ∧
    scrollCalls (main sampleLib limitOneConfig (onePage [hitX, hitTab])).log
      = [("c0", "10m")] ∧
    dataLines (main sampleLib limitOneConfig (onePage [hitX, hitTab])).log = ["x"] :=
  ⟨(limit_checked_before_record sampleLib limitOneConfig errorAfterPage rfl (by decide)
      (by decide)).1 [⟨"c1", [hitX]⟩] [ScrollResult.err "timeout"] (by simp) (by decide)
      (by decide) rfl,
    (limit_checked_before_record sampleLib limitOneConfig (onePage [hitX, hitTab]) rfl
      (by decide) (by decide)).2 [] "c1" [hitX] [] hitTab [ScrollResult.eof] (by simp)
      (by decide) (by decide) rfl,
    by decide, by decide, by decide, by decide, by decide⟩

end Estab
